import Mathlib

/-!
Verification of the GitHub plugin indexer (`src/backend/src/index.ts`) of the
plugins-forum repository.  The TypeScript indexer is shallowly embedded:

* pure helpers (`itemKey`, `indexedKey`, `parsePluginInfo`, the sort comparator
  of `writeUnifiedOutput`, the rate-limit decision logic of `githubFetchJson`)
  become Lean functions;
* the stateful crawl loop (`runOnce` with its variant loop and page loop)
  becomes a fuel-indexed interpreter over an explicit `Core` state, with the
  network modelled as an oracle (`Env`) and the side effects (`saveState`,
  `writeUnifiedOutput`, search fetches) recorded as an event list.

JavaScript regular-expression matching of the two fixed patterns in
`parsePluginInfo` is embedded by direct deterministic scanners (both patterns
are backtracking-free: every greedy sub-match is forced, see the comments at
`matchInfoAt`), `Buffer.from(_, 'base64').toString('utf8')` by an explicit
base64 + UTF-8 decoder, and `new Date(s).getTime()` by a parser of the
ISO-8601 format that `Date.prototype.toISOString` produces (the only format
the pipeline itself generates; other inputs parse to `none`, standing for
`NaN`).
-/

namespace OxideIndexer

/-! ## JavaScript character classes and primitive string operations -/

/-- The character class `\s` of JavaScript regular expressions
(ASCII whitespace plus the Unicode space separators). -/
def isJsSpace (c : Char) : Bool :=
  c = ' ' ∨ c = '\t' ∨ c = '\n' ∨ c = '\r' ∨ c.toNat = 11 ∨ c.toNat = 12 ∨
  c.toNat = 0xA0 ∨ c.toNat = 0x1680 ∨ (0x2000 ≤ c.toNat ∧ c.toNat ≤ 0x200A) ∨
  c.toNat = 0x2028 ∨ c.toNat = 0x2029 ∨ c.toNat = 0x202F ∨ c.toNat = 0x205F ∨
  c.toNat = 0x3000 ∨ c.toNat = 0xFEFF

/-- The character class `\w` of JavaScript regular expressions. -/
def isJsWord (c : Char) : Bool :=
  c.isAlpha ∨ c.isDigit ∨ c = '_'

/-- `parseInt(s, 10)`: skip leading whitespace, optional sign, then the longest
digit prefix; `none` models `NaN`. -/
def jsParseInt (s : String) : Option Int :=
  let cs := s.data.dropWhile isJsSpace
  let core : List Char → Option Int := fun l =>
    let ds := l.takeWhile Char.isDigit
    if ds.isEmpty then none
    else some ((ds.foldl (fun acc c => acc * 10 + (c.toNat - 48)) 0 : Nat) : Int)
  match cs with
  | '-' :: rest => (core rest).map (fun n => -n)
  | '+' :: rest => core rest
  | _ => core cs

/-- `s.split(sep)` for a one-character separator (JavaScript semantics:
`"".split("/")` is `[""]`, empty parts are kept). -/
def splitOnChar (c : Char) : List Char → List (List Char)
  | [] => [[]]
  | x :: xs =>
    if x = c then [] :: splitOnChar c xs
    else
      match splitOnChar c xs with
      | [] => [[x]]
      | p :: ps => (x :: p) :: ps

/-- `path.basename` for the forward-slash paths returned by the GitHub API. -/
def posixBasename (p : String) : String :=
  (((splitOnChar '/' p.data).filter (fun s => s ≠ [])).getLastD []).asString

/-- `s.replace(/\.[^.]+$/, "")`: drop a final dot-extension when the last dot
is followed by at least one character. -/
def stripLastExt (s : String) : String :=
  let rev := s.data.reverse
  match rev.dropWhile (fun c => c ≠ '.') with
  | '.' :: rest =>
    if (rev.takeWhile (fun c => c ≠ '.')).isEmpty then s
    else rest.reverse.asString
  | _ => s

/-! ## Base64 and UTF-8 decoding (`Buffer.from(content, 'base64').toString('utf8')`) -/

/-- Value of one character of the standard base64 alphabet; everything else
(including padding) is skipped, as Node's forgiving decoder does. -/
def b64Val (c : Char) : Option Nat :=
  if 'A' ≤ c ∧ c ≤ 'Z' then some (c.toNat - 65)
  else if 'a' ≤ c ∧ c ≤ 'z' then some (c.toNat - 97 + 26)
  else if '0' ≤ c ∧ c ≤ '9' then some (c.toNat - 48 + 52)
  else if c = '+' then some 62
  else if c = '/' then some 63
  else none

/-- Pack a stream of 6-bit groups into bytes, dropping a trailing partial byte. -/
def b64Pack : Nat → Nat → List Nat → List Nat
  | _, _, [] => []
  | acc, nbits, v :: vs =>
    let acc2 := acc * 64 + v
    let nbits2 := nbits + 6
    if 8 ≤ nbits2 then
      (acc2 / 2 ^ (nbits2 - 8)) :: b64Pack (acc2 % 2 ^ (nbits2 - 8)) (nbits2 - 8) vs
    else
      b64Pack acc2 nbits2 vs

/-- Decode a UTF-8 byte list; malformed sequences produce U+FFFD, as Node's
`toString('utf8')` does for them.  Fuel-indexed (each step consumes at least
one byte, so fuel `bs.length` at `utf8Decode` is always enough). -/
def utf8DecodeF : Nat → List Nat → List Char
  | 0, _ => []
  | _, [] => []
  | fuel + 1, b :: bs =>
    if b < 128 then Char.ofNat b :: utf8DecodeF fuel bs
    else if 192 ≤ b ∧ b < 224 then
      match bs with
      | b2 :: bs2 =>
        if 128 ≤ b2 ∧ b2 < 192 then
          Char.ofNat ((b - 192) * 64 + (b2 - 128)) :: utf8DecodeF fuel bs2
        else Char.ofNat 0xFFFD :: utf8DecodeF fuel (b2 :: bs2)
      | [] => [Char.ofNat 0xFFFD]
    else if 224 ≤ b ∧ b < 240 then
      match bs with
      | b2 :: b3 :: bs3 =>
        if (128 ≤ b2 ∧ b2 < 192) ∧ (128 ≤ b3 ∧ b3 < 192) then
          Char.ofNat ((b - 224) * 4096 + (b2 - 128) * 64 + (b3 - 128)) :: utf8DecodeF fuel bs3
        else Char.ofNat 0xFFFD :: utf8DecodeF fuel (b2 :: b3 :: bs3)
      | _ => [Char.ofNat 0xFFFD]
    else if 240 ≤ b ∧ b < 248 then
      match bs with
      | b2 :: b3 :: b4 :: bs4 =>
        if (128 ≤ b2 ∧ b2 < 192) ∧ (128 ≤ b3 ∧ b3 < 192) ∧ (128 ≤ b4 ∧ b4 < 192) then
          Char.ofNat ((b - 240) * 262144 + (b2 - 128) * 4096 + (b3 - 128) * 64 + (b4 - 128)) ::
            utf8DecodeF fuel bs4
        else Char.ofNat 0xFFFD :: utf8DecodeF fuel (b2 :: b3 :: b4 :: bs4)
      | _ => [Char.ofNat 0xFFFD]
    else Char.ofNat 0xFFFD :: utf8DecodeF fuel bs

def utf8Decode (bs : List Nat) : List Char := utf8DecodeF bs.length bs

/-- `Buffer.from(content, 'base64').toString('utf8')`. -/
def decodeBase64 (s : String) : String :=
  (utf8Decode (b64Pack 0 0 (s.data.filterMap b64Val))).asString

/-! ## The two regular expressions of `parsePluginInfo`

`/\[Info\s*\(\s*"([^"]+)"\s*,\s*"([^"]+)"\s*\)/` and
`/class\s+(\w+)\s*:\s*(RustPlugin|CovalencePlugin)/`.

Both are deterministic at any given start position: each `\s*`/`\s+` run is
followed by a character that is not whitespace, each `[^"]+` capture is
followed by `"` (which it cannot contain), and `\w+` is preceded by `\s+` and
followed by `\s*:` (word characters are neither whitespace nor `:`), so no
greedy sub-match can be shortened by backtracking.  Leftmost matching is the
scan over start positions in `findInfo` / `findClass`. -/

/-- `some rest` iff `l = pre ++ rest`. -/
def stripPrefixCs : List Char → List Char → Option (List Char)
  | [], l => some l
  | _ :: _, [] => none
  | p :: ps, x :: xs => if x = p then stripPrefixCs ps xs else none

/-- Consume one expected character. -/
def expectChar (c : Char) : List Char → Option (List Char)
  | [] => none
  | x :: xs => if x = c then some xs else none

/-- Match `\[Info\s*\(\s*"([^"]+)"\s*,\s*"([^"]+)"\s*\)` at the head of `l`,
returning the two captures. -/
def matchInfoAt (l : List Char) : Option (String × String) :=
  match stripPrefixCs "[Info".data l with
  | none => none
  | some l1 =>
    match expectChar '(' (l1.dropWhile isJsSpace) with
    | none => none
    | some l3 =>
      match expectChar '"' (l3.dropWhile isJsSpace) with
      | none => none
      | some l5 =>
        let n := l5.takeWhile (fun c => c ≠ '"')
        match expectChar '"' (l5.dropWhile (fun c => c ≠ '"')) with
        | none => none
        | some l6 =>
          if n.isEmpty then none
          else
            match expectChar ',' (l6.dropWhile isJsSpace) with
            | none => none
            | some l8 =>
              match expectChar '"' (l8.dropWhile isJsSpace) with
              | none => none
              | some l10 =>
                let a := l10.takeWhile (fun c => c ≠ '"')
                match expectChar '"' (l10.dropWhile (fun c => c ≠ '"')) with
                | none => none
                | some l11 =>
                  if a.isEmpty then none
                  else
                    match expectChar ')' (l11.dropWhile isJsSpace) with
                    | none => none
                    | some _ => some (n.asString, a.asString)

/-- First (leftmost) match of the `[Info(...)]` pattern. -/
def findInfo : List Char → Option (String × String)
  | [] => none
  | c :: cs =>
    match matchInfoAt (c :: cs) with
    | some r => some r
    | none => findInfo cs

/-- Match `class\s+(\w+)\s*:\s*(RustPlugin|CovalencePlugin)` at the head of
`l`, returning the class name and the matched base type. -/
def matchClassAt (l : List Char) : Option (String × String) :=
  match stripPrefixCs "class".data l with
  | none => none
  | some l1 =>
    if (l1.takeWhile isJsSpace).isEmpty then none
    else
      let l2 := l1.dropWhile isJsSpace
      let w := l2.takeWhile isJsWord
      if w.isEmpty then none
      else
        match expectChar ':' ((l2.dropWhile isJsWord).dropWhile isJsSpace) with
        | none => none
        | some l5 =>
          let l6 := l5.dropWhile isJsSpace
          match stripPrefixCs "RustPlugin".data l6 with
          | some _ => some (w.asString, "RustPlugin")
          | none =>
            match stripPrefixCs "CovalencePlugin".data l6 with
            | some _ => some (w.asString, "CovalencePlugin")
            | none => none

/-- First (leftmost) match of the class-declaration pattern. -/
def findClass : List Char → Option (String × String)
  | [] => none
  | c :: cs =>
    match matchClassAt (c :: cs) with
    | some r => some r
    | none => findClass cs

/-- `parsePluginInfo` after base64 decoding: first the structured `[Info]`
attribute, then the class-declaration fallback (author left empty). -/
def parsePluginInfoDecoded (decoded : String) : Option (String × String) :=
  match findInfo decoded.data with
  | some (n, a) => some (n, a)
  | none =>
    match findClass decoded.data with
    | some (cls, _) => some (cls, "")
    | none => none

/-- `parsePluginInfo(content)` of `index.ts` (content is base64-encoded). -/
def parsePluginInfo (content : String) : Option (String × String) :=
  parsePluginInfoDecoded (decodeBase64 content)

/-! ## Data model (`GitHubCodeSearchItem`, `GitHubRepo`, `IndexedPlugin`, state) -/

/-- The fields of a `GitHubCodeSearchItem` that the indexer reads
(`item.repository` is flattened to the only field used, `full_name`). -/
structure SItem where
  name : String
  path : String
  html_url : String
  sha : String
  size : Nat
  repo_full_name : String
deriving DecidableEq

structure GitHubRepo where
  full_name : String
  name : String
  html_url : String
  description : Option String
  default_branch : String
  stargazers_count : Nat
  forks_count : Nat
  open_issues_count : Nat
  created_at : String
  pushed_at : String
  owner_login : String
  owner_url : String
deriving DecidableEq

structure PluginFile where
  path : String
  html_url : String
  raw_url : String
  sha : String
  size : Nat
deriving DecidableEq

structure PluginRepo where
  full_name : String
  name : String
  html_url : String
  description : Option String
  owner_login : String
  owner_url : String
  default_branch : String
  stargazers_count : Nat
  forks_count : Nat
  open_issues_count : Nat
  created_at : String
deriving DecidableEq

structure IndexedPlugin where
  plugin_name : String
  plugin_author : String
  language : String
  file : PluginFile
  repository : PluginRepo
  indexed_at : String
deriving DecidableEq

/-- `IndexerState` (the persisted crawl state). `seenKeys` is the key set of
the JS record, `repoCache` an insertion-ordered association list. -/
structure IndexerState where
  version : String
  currentVariant : Nat
  currentPage : Nat
  seenKeys : List String
  repoCache : List (String × GitHubRepo)
  lastFullScanAt : Option String
  query : String
deriving DecidableEq

structure SearchVariant where
  name : String
  query : String
deriving DecidableEq

def indexerBaseQuery : String := "namespace Oxide.Plugins in:file language:C#"

/-- `buildSearchVariants()` of `index.ts`. -/
def buildSearchVariants : List SearchVariant :=
  [ { name := "all", query := indexerBaseQuery },
    { name := "with-extension", query := indexerBaseQuery ++ " extension:cs" },
    { name := "fork-false", query := indexerBaseQuery ++ " fork:false" },
    { name := "fork-true", query := indexerBaseQuery ++ " fork:true" },
    { name := "fork-false-extension", query := indexerBaseQuery ++ " extension:cs fork:false" },
    { name := "fork-true-extension", query := indexerBaseQuery ++ " extension:cs fork:true" },
    { name := "size-small", query := indexerBaseQuery ++ " size:<10000" },
    { name := "size-medium", query := indexerBaseQuery ++ " size:10000..50000" },
    { name := "size-large", query := indexerBaseQuery ++ " size:>50000" },
    { name := "size-tiny", query := indexerBaseQuery ++ " size:<1000" },
    { name := "size-small-2", query := indexerBaseQuery ++ " size:1000..5000" },
    { name := "size-small-3", query := indexerBaseQuery ++ " size:5000..10000" },
    { name := "size-medium-2", query := indexerBaseQuery ++ " size:50000..100000" },
    { name := "size-large-2", query := indexerBaseQuery ++ " size:100000..200000" },
    { name := "size-huge", query := indexerBaseQuery ++ " size:>200000" },
    { name := "no-language", query := "namespace Oxide.Plugins in:file" },
    { name := "no-language-extension", query := "namespace Oxide.Plugins in:file extension:cs" },
    { name := "sort-indexed", query := indexerBaseQuery ++ " sort:indexed" },
    { name := "sort-indexed-desc", query := indexerBaseQuery ++ " sort:indexed order:desc" },
    { name := "sort-indexed-asc", query := indexerBaseQuery ++ " sort:indexed order:asc" },
    { name := "csharp-only", query := "namespace Oxide.Plugins language:C#" },
    { name := "csharp-extension", query := "namespace Oxide.Plugins language:C# extension:cs" },
    { name := "csharp-fork-true", query := "namespace Oxide.Plugins language:C# fork:true" },
    { name := "csharp-fork-false", query := "namespace Oxide.Plugins language:C# fork:false" },
    { name := "fork-true-small", query := indexerBaseQuery ++ " fork:true size:<10000" },
    { name := "fork-true-medium", query := indexerBaseQuery ++ " fork:true size:10000..50000" },
    { name := "fork-true-large", query := indexerBaseQuery ++ " fork:true size:>50000" },
    { name := "fork-false-small", query := indexerBaseQuery ++ " fork:false size:<10000" },
    { name := "fork-false-medium", query := indexerBaseQuery ++ " fork:false size:10000..50000" },
    { name := "fork-false-large", query := indexerBaseQuery ++ " fork:false size:>50000" } ]

def variantsLen : Nat := buildSearchVariants.length

/-- `itemKey(item)`. -/
def itemKey (item : SItem) : String :=
  item.repo_full_name ++ "#" ++ item.path ++ "#" ++ item.sha

/-- `indexedKey(p)`. -/
def indexedKey (p : IndexedPlugin) : String :=
  p.repository.full_name ++ "#" ++ p.file.path ++ "#" ++ p.file.sha

/-! ## The JS `Map<string, IndexedPlugin>` (insertion order, unique keys) -/

abbrev EMap : Type := List (String × IndexedPlugin)

def mapHas (m : EMap) (k : String) : Bool :=
  m.any (fun p => p.1 = k)

/-- `Map.set`: replace in place when the key exists, append otherwise. -/
def mapSet (m : EMap) (k : String) (v : IndexedPlugin) : EMap :=
  if mapHas m k then m.map (fun p => if p.1 = k then (k, v) else p)
  else m ++ [(k, v)]

def mapValues (m : EMap) : List IndexedPlugin := m.map Prod.snd

/-! ## `new Date(s).getTime()` for ISO-8601 timestamps

Modelled for the `YYYY-MM-DDTHH:MM:SS.sssZ` format produced by
`Date.prototype.toISOString` — the only format the indexer itself writes into
`indexed_at` — with years from 1970 on; anything else yields `none`, the
model's `NaN`. -/

def digitVal (c : Char) : Option Nat :=
  if c.isDigit then some (c.toNat - 48) else none

def twoDigits (a b : Char) : Option Nat :=
  match digitVal a, digitVal b with
  | some x, some y => some (x * 10 + y)
  | _, _ => none

def isLeapYear (y : Nat) : Bool :=
  (y % 4 = 0 ∧ y % 100 ≠ 0) ∨ y % 400 = 0

def daysInMonth (y m : Nat) : Nat :=
  if m = 2 then (if isLeapYear y then 29 else 28)
  else if m = 4 ∨ m = 6 ∨ m = 9 ∨ m = 11 then 30
  else if 1 ≤ m ∧ m ≤ 12 then 31
  else 0

/-- Number of leap years in `[1, y]`. -/
def leapsThrough (y : Nat) : Nat := y / 4 + y / 400 - y / 100

def daysSinceEpochYear (y : Nat) : Nat :=
  365 * (y - 1970) + (leapsThrough (y - 1) - leapsThrough 1969)

def daysBeforeMonth (y m : Nat) : Nat :=
  ((List.range (m - 1)).map (fun k => daysInMonth y (k + 1))).sum

def isoFieldsToMs (y mo d h mi s ms : Nat) : Option Int :=
  if 1970 ≤ y ∧ 1 ≤ mo ∧ mo ≤ 12 ∧ 1 ≤ d ∧ d ≤ daysInMonth y mo ∧
     h ≤ 23 ∧ mi ≤ 59 ∧ s ≤ 59 then
    some ((((((daysSinceEpochYear y + daysBeforeMonth y mo + (d - 1)) * 24 + h) * 60 + mi) * 60
            + s) * 1000 + ms : Nat) : Int)
  else none

def parseISOms (str : String) : Option Int :=
  match str.data with
  | [y1, y2, y3, y4, c1, mo1, mo2, c2, d1, d2, c3, h1, h2, c4, mi1, mi2, c5, s1, s2, c6,
     f1, f2, f3, c7] =>
    if c1 = '-' ∧ c2 = '-' ∧ c3 = 'T' ∧ c4 = ':' ∧ c5 = ':' ∧ c6 = '.' ∧ c7 = 'Z' then
      match digitVal y1, digitVal y2, digitVal y3, digitVal y4, twoDigits mo1 mo2,
            twoDigits d1 d2, twoDigits h1 h2, twoDigits mi1 mi2, twoDigits s1 s2,
            digitVal f1, digitVal f2, digitVal f3 with
      | some a, some b, some c, some d, some mo, some dy, some hh, some mm, some ss,
        some x, some y, some z =>
        isoFieldsToMs (a * 1000 + b * 100 + c * 10 + d) mo dy hh mm ss (x * 100 + y * 10 + z)
      | _, _, _, _, _, _, _, _, _, _, _, _ => none
    else none
  | _ => none

/-! ## The sort comparator of `writeUnifiedOutput` -/

def strCmpChars : List Char → List Char → Int
  | [], [] => 0
  | [], _ :: _ => -1
  | _ :: _, [] => 1
  | a :: as, b :: bs =>
    if a.toNat < b.toNat then -1 else if b.toNat < a.toNat then 1 else strCmpChars as bs

/-- `String.prototype.localeCompare`, modelled as code-point lexicographic
comparison (a fixed total order on strings; the claims do not depend on the
locale's collation details). -/
def strCmp (a b : String) : Int := strCmpChars a.data b.data

def tieCmp (a b : IndexedPlugin) : Int :=
  if a.repository.full_name = b.repository.full_name then strCmp a.file.path b.file.path
  else strCmp a.repository.full_name b.repository.full_name

/-- The comparator of `writeUnifiedOutput`: indexed-at descending, then
repository name, then file path.  When either timestamp is `NaN` the JS
comparator returns `NaN`, which `Array.prototype.sort` treats as `0`. -/
def cmpItems (a b : IndexedPlugin) : Int :=
  match parseISOms a.indexed_at, parseISOms b.indexed_at with
  | some x, some y => if x = y then tieCmp a b else y - x
  | _, _ => 0

/-- Stable insertion into a run already sorted by `cmpItems`. -/
def insertSorted (x : IndexedPlugin) : List IndexedPlugin → List IndexedPlugin
  | [] => [x]
  | y :: ys => if cmpItems x y ≤ 0 then x :: y :: ys else y :: insertSorted x ys

/-- `allItems.sort(comparator)`: a stable sort consistent with the comparator,
which is what ECMAScript guarantees; modelled by stable insertion sort. -/
def sortItems (l : List IndexedPlugin) : List IndexedPlugin :=
  l.foldr insertSorted []

structure OutputPayload where
  generated_at : String
  query : String
  count : Nat
  items : List IndexedPlugin
deriving DecidableEq

/-- `writeUnifiedOutput(existingMap, query)`; `now` is the
`new Date().toISOString()` value used for `generated_at`. -/
def writeUnifiedOutput (m : EMap) (query : String) (now : String) : OutputPayload :=
  let allItems := sortItems (mapValues m)
  { generated_at := now, query := query, count := allItems.length, items := allItems }

/-! ## The crawl interpreter

The network and the clock are an oracle (`Env`); `saveState`,
`writeUnifiedOutput` and each page-loop iteration's search fetch are recorded
as events.  Fetch oracles are indexed by the variant index (the variant list
is fixed, so the index determines the query string) and the page number, and
return `none` where the TypeScript call would throw. -/

structure Env where
  countFetch : Nat → Nat → Option Nat
  pageFetch : Nat → Nat → Option (List SItem)
  repoFetch : String → Option GitHubRepo
  fileFetch : String → String → String → Option String
  now : String
  searchQuery : String
  loadedState : Option IndexerState
  loadedItems : List IndexedPlugin

inductive Ev where
  | fetchPage (variantIdx page : Nat)
  | save (st : IndexerState)
  | write (out : OutputPayload)
deriving DecidableEq

/-- The in-memory state of one `runOnce` call. -/
structure Core where
  st : IndexerState
  existingMap : EMap
  processedCount : Nat
  newEntries : Nat
  lastFlushedNewEntries : Nat

def jsSplitOwnerRepo (fullName : String) : Option (String × String) :=
  match splitOnChar '/' fullName.data with
  | a :: b :: _ => if a ≠ [] ∧ b ≠ [] then some (a.asString, b.asString) else none
  | _ => none

def lookupCache (cache : List (String × GitHubRepo)) (k : String) : Option GitHubRepo :=
  match cache.find? (fun p => p.1 = k) with
  | some p => some p.2
  | none => none

/-- The name/author part of `mapItemToIndexedPlugin`: fetch the file, parse
it, fall back to the file name and the repository owner's login; an empty
parsed author is replaced by the owner's login (`parsed.author || login`). -/
def extractNameAuthor (env : Env) (fullName pathStr sha fallbackName ownerLogin : String) :
    String × String :=
  match env.fileFetch fullName pathStr sha with
  | none => (fallbackName, ownerLogin)
  | some content =>
    match parsePluginInfo content with
    | some (n, a) => (n, if a = "" then ownerLogin else a)
    | none => (fallbackName, ownerLogin)

/-- `mapItemToIndexedPlugin(item, repoCache)`: `none` models a thrown error
(invalid repository name, or repository fetch failure); on success returns
the plugin together with the updated repository cache. -/
def mapItemToIndexedPlugin (env : Env) (item : SItem) (cache : List (String × GitHubRepo)) :
    Option (IndexedPlugin × List (String × GitHubRepo)) :=
  match jsSplitOwnerRepo item.repo_full_name with
  | none => none
  | some _ =>
    let fullName := item.repo_full_name
    match (match lookupCache cache fullName with
           | some rd => some (rd, cache)
           | none =>
             match env.repoFetch fullName with
             | some rd => some (rd, cache ++ [(fullName, rd)])
             | none => none) with
    | none => none
    | some (repoData, cache2) =>
      let fallbackName := stripLastExt (posixBasename item.path)
      let na := extractNameAuthor env fullName item.path item.sha fallbackName repoData.owner_login
      some ({ plugin_name := na.1, plugin_author := na.2, language := "C#",
              file := { path := item.path, html_url := item.html_url,
                        raw_url := "https://raw.githubusercontent.com/" ++ fullName ++ "/" ++
                                   repoData.default_branch ++ "/" ++ item.path,
                        sha := item.sha, size := item.size },
              repository := { full_name := repoData.full_name, name := repoData.name,
                              html_url := repoData.html_url, description := repoData.description,
                              owner_login := repoData.owner_login, owner_url := repoData.owner_url,
                              default_branch := repoData.default_branch,
                              stargazers_count := repoData.stargazers_count,
                              forks_count := repoData.forks_count,
                              open_issues_count := repoData.open_issues_count,
                              created_at := repoData.created_at },
              indexed_at := env.now }, cache2)

/-- One iteration of the per-item loop in `runOnce`: seen-key check, item
mapping (errors are caught and skip the item), dedup insertion into the
output map, seen-key update, and the 50-item checkpoint. -/
def processItem (env : Env) (c : Core) (item : SItem) : Core × List Ev :=
  let key := itemKey item
  if c.st.seenKeys.contains key then (c, [])
  else
    match mapItemToIndexedPlugin env item c.st.repoCache with
    | none => (c, [])
    | some (indexed, cache2) =>
      let ikey := indexedKey indexed
      let em2 := if mapHas c.existingMap ikey then c.existingMap
                 else c.existingMap ++ [(ikey, indexed)]
      let ne2 := if mapHas c.existingMap ikey then c.newEntries else c.newEntries + 1
      let st2 := { c.st with repoCache := cache2, seenKeys := c.st.seenKeys ++ [key] }
      let pc2 := c.processedCount + 1
      if pc2 % 50 = 0 ∧ c.lastFlushedNewEntries < ne2 then
        (⟨st2, em2, pc2, ne2, ne2⟩,
         [Ev.write (writeUnifiedOutput em2 env.searchQuery env.now), Ev.save st2])
      else
        (⟨st2, em2, pc2, ne2, c.lastFlushedNewEntries⟩, [])

def processItems (env : Env) (c : Core) : List SItem → Core × List Ev
  | [] => (c, [])
  | it :: rest =>
    let r := processItem env c it
    let r2 := processItems env r.1 rest
    (r2.1, r.2 ++ r2.2)

/-- The page loop (`while (state.currentPage <= 10)`), fuel-indexed.  Each
iteration fetches the variant's total count and the current page (recorded as
one `Ev.fetchPage`); a thrown fetch error, a zero total count, an empty page,
or a short page breaks out; otherwise the page counter advances and the state
is saved.  Fuel `11` is enough for every entry state, since the counter
increases by one per iteration. -/
def pageLoopF (env : Env) : Nat → Core → Core × List Ev
  | 0, c => (c, [])
  | fuel + 1, c =>
    if c.st.currentPage ≤ 10 then
      let i := c.st.currentVariant
      let p := c.st.currentPage
      match env.countFetch i p with
      | none => (c, [Ev.fetchPage i p])
      | some totalCount =>
        if totalCount = 0 then (c, [Ev.fetchPage i p])
        else
          match env.pageFetch i p with
          | none => (c, [Ev.fetchPage i p])
          | some items =>
            if items.length = 0 then (c, [Ev.fetchPage i p])
            else
              let r1 := processItems env c items
              let st2 := { r1.1.st with currentPage := r1.1.st.currentPage + 1 }
              let c2 : Core := { r1.1 with st := st2 }
              if items.length < 100 then
                (c2, Ev.fetchPage i p :: (r1.2 ++ [Ev.save st2]))
              else
                let r3 := pageLoopF env fuel c2
                (r3.1, Ev.fetchPage i p :: (r1.2 ++ (Ev.save st2 :: r3.2)))
    else (c, [])

/-- The variant loop (`for (let variantIndex = state.currentVariant; ...)`),
fuel-indexed; fuel `variantsLen` is enough for every entry index. -/
def variantLoopF (env : Env) : Nat → Nat → Core → Core × List Ev
  | 0, _, c => (c, [])
  | fuel + 1, variantIndex, c =>
    if variantIndex < variantsLen then
      let r0 : Core × List Ev :=
        if variantIndex ≠ c.st.currentVariant then
          let st1 := { c.st with currentVariant := variantIndex, currentPage := 1 }
          ({ c with st := st1 }, [Ev.save st1])
        else (c, [])
      let r1 := pageLoopF env 11 r0.1
      let r2 := variantLoopF env fuel (variantIndex + 1) r1.1
      (r2.1, r0.2 ++ (r1.2 ++ r2.2))
    else (c, [])

def freshState (env : Env) : IndexerState :=
  { version := "1.0", currentVariant := 0, currentPage := 1, seenKeys := [],
    repoCache := [], lastFullScanAt := none, query := env.searchQuery }

/-- Load-or-initialise of the state at the top of `runOnce`. -/
def initState (env : Env) : IndexerState × List Ev :=
  match env.loadedState with
  | some s => if s.version = "1.0" then (s, []) else (freshState env, [Ev.save (freshState env)])
  | none => (freshState env, [Ev.save (freshState env)])

/-- `loadExistingOutput()`: rebuild the output map from the published items. -/
def loadExistingOutput (items : List IndexedPlugin) : EMap :=
  items.foldl (fun m it => mapSet m (indexedKey it) it) []

/-- `runOnce()`: initialise, run the variant loop, final flush if there are
unflushed new entries, then reset the state for the next cycle and save it. -/
def runOnce (env : Env) : Core × List Ev :=
  let is0 := initState env
  let c0 : Core := ⟨is0.1, loadExistingOutput env.loadedItems, 0, 0, 0⟩
  let r1 := variantLoopF env variantsLen is0.1.currentVariant c0
  let c1 := r1.1
  let wEvs : List Ev :=
    if c1.lastFlushedNewEntries < c1.newEntries then
      [Ev.write (writeUnifiedOutput c1.existingMap env.searchQuery env.now)]
    else []
  let stF := { c1.st with
               lastFullScanAt := some env.now, currentVariant := 0,
               currentPage := 1, seenKeys := [] }
  (⟨stF, c1.existingMap, c1.processedCount, c1.newEntries, c1.lastFlushedNewEntries⟩,
   is0.2 ++ (r1.2 ++ (wEvs ++ [Ev.save stF])))

/-! ## Event-trace projections -/

def savedStatesOf (evs : List Ev) : List IndexerState :=
  evs.filterMap (fun e => match e with | Ev.save s => some s | _ => none)

/-- The state on disk after the events: the last `saveState`. -/
def lastSavedState (evs : List Ev) : Option IndexerState :=
  (savedStatesOf evs).getLast?

/-- The (variant, page) pairs fetched, in order. -/
def fetchesOf (evs : List Ev) : List (Nat × Nat) :=
  evs.filterMap (fun e => match e with | Ev.fetchPage i p => some (i, p) | _ => none)

def writesOf (evs : List Ev) : List OutputPayload :=
  evs.filterMap (fun e => match e with | Ev.write w => some w | _ => none)

/-! ## The rate-limit handling of `githubFetchJson`

One call to `fetch` has returned; the decision taken on its status and
headers is modelled as a `FetchStep`.  `sleepRetry w` stands for "sleep `w`
milliseconds, then retry with `attempt + 1`"; `sleepThenFail w` for the
secondary-limit branch at `attempt >= 6`, which sleeps `w` and then throws;
header fields are `none` when `res.headers.get` would return `null`. -/

structure HttpResp where
  status : Nat
  remaining : Option String
  resetSearch : Option String
  resetPrimary : Option String
  retryAfter : Option String
deriving DecidableEq

inductive FetchStep where
  | sleepRetry (waitMs : Int)
  | sleepThenFail (waitMs : Int)
  | httpError
  | success
deriving DecidableEq

/-- `(resetSearch ?? resetPrimary) || "0"`: the search-specific reset header
is preferred; a missing or empty result falls back to `"0"`. -/
def resetHeaderStr (r : HttpResp) : String :=
  match r.resetSearch with
  | some s => if s = "" then "0" else s
  | none =>
    match r.resetPrimary with
    | some s => if s = "" then "0" else s
    | none => "0"

/-- `remaining === "0" && resetSeconds > 0`. -/
def primaryApplies (r : HttpResp) : Bool :=
  decide (r.remaining = some "0") &&
  (match jsParseInt (resetHeaderStr r) with
   | some n => decide (0 < n)
   | none => false)

/-- `Math.max(0, resetSeconds * 1000 - Date.now()) + 1500`. -/
def primaryWaitMs (r : HttpResp) (now : Int) : Int :=
  max 0 ((jsParseInt (resetHeaderStr r)).getD 0 * 1000 - now) + 1500

/-- Truthiness of the `Retry-After` header (`null` and `""` are falsy). -/
def retryAfterTruthy (r : HttpResp) : Bool :=
  match r.retryAfter with
  | some s => s ≠ ""
  | none => false

/-- `Math.max(1000, parseInt(retryAfter, 10) * 1000)`; an unparseable header
gives `NaN`, and `sleep(NaN)` does not sleep, modelled as `0`. -/
def retryAfterWaitMs (s : String) : Int :=
  match jsParseInt s with
  | some k => max 1000 (k * 1000)
  | none => 0

/-- `Math.min(120000, 5000 * attempt)`, the secondary-rate-limit backoff. -/
def secondaryBackoffMs (attempt : Nat) : Int :=
  min 120000 (5000 * (attempt : Int))

/-- `Number.parseInt(res.headers.get("Retry-After") ?? "10", 10) * 1000`. -/
def retryAfter429Ms (r : HttpResp) : Int :=
  match jsParseInt ((r.retryAfter).getD "10") with
  | some k => k * 1000
  | none => 0

/-- The status/header dispatch of `githubFetchJson` after one response. -/
def githubFetchStep (r : HttpResp) (attempt : Nat) (now : Int) : FetchStep :=
  if r.status = 403 then
    if primaryApplies r then
      FetchStep.sleepRetry (primaryWaitMs r now)
    else if retryAfterTruthy r then
      FetchStep.sleepRetry (retryAfterWaitMs ((r.retryAfter).getD ""))
    else if 6 ≤ attempt then FetchStep.sleepThenFail (secondaryBackoffMs attempt)
    else FetchStep.sleepRetry (secondaryBackoffMs attempt)
  else if r.status = 429 then FetchStep.sleepRetry (retryAfter429Ms r)
  else if 200 ≤ r.status ∧ r.status ≤ 299 then FetchStep.success
  else FetchStep.httpError

/-- A 403 with quota left and neither reset nor `Retry-After` headers: the
secondary-rate-limit case. -/
def bare403 : HttpResp :=
  { status := 403, remaining := some "4999", resetSearch := none,
    resetPrimary := none, retryAfter := none }

/-! ## Concrete oracle environments for the claims -/

def repoA : GitHubRepo :=
  { full_name := "alice/repo", name := "repo", html_url := "https://github.com/alice/repo",
    description := none, default_branch := "main", stargazers_count := 1, forks_count := 0,
    open_issues_count := 0, created_at := "2020-01-01T00:00:00.000Z",
    pushed_at := "2024-01-01T00:00:00.000Z", owner_login := "alice",
    owner_url := "https://github.com/alice" }

def itemA : SItem :=
  { name := "MyPlugin.cs", path := "plugins/MyPlugin.cs", html_url := "hu", sha := "abc",
    size := 10, repo_full_name := "alice/repo" }

/-- Environment for C1: fetching variant 1 fails, every other variant has a
zero total count. -/
def envC1 : Env :=
  { countFetch := fun i _ => if i = 1 then none else some 0,
    pageFetch := fun _ _ => some [], repoFetch := fun _ => none,
    fileFetch := fun _ _ _ => none, now := "T", searchQuery := "Q",
    loadedState := none, loadedItems := [] }

/-- An entry of a previously published index: same repository and path as the
item `envC2` discovers, but another content hash. -/
def pluginOldC2 : IndexedPlugin :=
  { plugin_name := "p", plugin_author := "a", language := "C#",
    file := { path := "plugins/MyPlugin.cs", html_url := "h", raw_url := "r", sha := "s",
              size := 1 },
    repository := { full_name := "alice/repo", name := "n", html_url := "h",
                    description := none, owner_login := "o", owner_url := "u",
                    default_branch := "main", stargazers_count := 0, forks_count := 0,
                    open_issues_count := 0, created_at := "c" },
    indexed_at := "2024-01-01T00:00:00.000Z" }

/-- The plugin `envC2`'s single discovered item maps to. -/
def pluginC2 : IndexedPlugin :=
  { plugin_name := "MyPlugin", plugin_author := "alice", language := "C#",
    file := { path := "plugins/MyPlugin.cs", html_url := "hu",
              raw_url := "https://raw.githubusercontent.com/alice/repo/main/plugins/MyPlugin.cs",
              sha := "abc", size := 10 },
    repository := { full_name := "alice/repo", name := "repo",
                    html_url := "https://github.com/alice/repo", description := none,
                    owner_login := "alice", owner_url := "https://github.com/alice",
                    default_branch := "main", stargazers_count := 1, forks_count := 0,
                    open_issues_count := 0, created_at := "2020-01-01T00:00:00.000Z" },
    indexed_at := "2024-01-02T03:04:05.006Z" }

/-- Environment for C2: one previously published entry, and variant 0 yields
one new item on one page. -/
def envC2 : Env :=
  { countFetch := fun i _ => if i = 0 then some 1 else some 0,
    pageFetch := fun i p => if i = 0 ∧ p = 1 then some [itemA] else some [],
    repoFetch := fun fn => if fn = "alice/repo" then some repoA else none,
    fileFetch := fun _ _ _ => none, now := "2024-01-02T03:04:05.006Z", searchQuery := "Q",
    loadedState := none, loadedItems := [pluginOldC2] }

/-- The output payload `envC2`'s run writes. -/
def wC2 : OutputPayload :=
  { generated_at := "2024-01-02T03:04:05.006Z", query := "Q", count := 2,
    items := [pluginC2, pluginOldC2] }

def mkItemN (k : Nat) : SItem :=
  { name := "P.cs", path := "P.cs", html_url := "h", sha := toString k, size := 1,
    repo_full_name := "o/r" }

/-- A full page of 100 distinct items. -/
def bigPage : List SItem := (List.range 100).map mkItemN

def itemB : SItem :=
  { name := "B.cs", path := "B.cs", html_url := "h", sha := "b", size := 1,
    repo_full_name := "o/r" }

/-- Environment for C3: variant 0 has ten full pages, variant 1 one short
page, every later variant a zero count.  Repository resolution fails, so item
processing leaves the state unchanged. -/
def envC3 : Env :=
  { countFetch := fun i _ => if i = 0 then some 1000 else if i = 1 then some 5 else some 0,
    pageFetch := fun i p =>
      if i = 0 then some bigPage else if i = 1 ∧ p = 1 then some [itemB] else some [],
    repoFetch := fun _ => none, fileFetch := fun _ _ _ => none,
    now := "T", searchQuery := "Q", loadedState := none, loadedItems := [] }

/-- A loaded persisted state carrying a non-empty repository cache. -/
def stLoaded9 : IndexerState :=
  { version := "1.0", currentVariant := 0, currentPage := 1, seenKeys := [],
    repoCache := [("alice/repo", repoA)], lastFullScanAt := none, query := "Q" }

/-- Environment for C9: nothing is fetched; the loaded state's repository
cache is the only cache content. -/
def envC9 : Env :=
  { countFetch := fun _ _ => some 0, pageFetch := fun _ _ => some [],
    repoFetch := fun _ => none, fileFetch := fun _ _ _ => none,
    now := "T", searchQuery := "Q", loadedState := some stLoaded9, loadedItems := [] }

/-! ## Derived projections and predicates used by the claims -/

/-- The in-memory state after the variant loop of `runOnce`, before the final
flush and reset. -/
def coreAfterVariants (env : Env) : Core :=
  (variantLoopF env variantsLen (initState env).1.currentVariant
    ⟨(initState env).1, loadExistingOutput env.loadedItems, 0, 0, 0⟩).1

/-- The state written by the final `saveState` of `runOnce`. -/
def finalStateOf (env : Env) : IndexerState :=
  { (coreAfterVariants env).st with
    lastFullScanAt := some env.now, currentVariant := 0, currentPage := 1, seenKeys := [] }

/-- The identity triple of an indexed plugin. -/
def tripleOf (p : IndexedPlugin) : String × String × String :=
  (p.repository.full_name, p.file.path, p.file.sha)

/-- Distinctness of identity triples (the dedup invariant's relation). -/
def tripleNe (a b : IndexedPlugin) : Prop := tripleOf a ≠ tripleOf b

/-- The output map's invariant: keys are pairwise distinct and every entry is
keyed by `indexedKey` of its value. -/
def goodMap (m : EMap) : Prop :=
  m.Pairwise (fun p q => p.1 ≠ q.1) ∧ ∀ p ∈ m, p.1 = indexedKey p.2

/-- The sort key on timestamps (`NaN` never occurs where this is used: the
sortedness statement assumes every `indexed_at` parses). -/
def tsKey (p : IndexedPlugin) : Int := (parseISOms p.indexed_at).getD 0

/-- The spec's sort order: indexed-at descending, ties broken by repository
full name, then by file path. -/
def specOrder (a b : IndexedPlugin) : Prop :=
  tsKey b < tsKey a ∨
  (tsKey a = tsKey b ∧
    (strCmp a.repository.full_name b.repository.full_name < 0 ∨
      (a.repository.full_name = b.repository.full_name ∧
       strCmp a.file.path b.file.path ≤ 0)))

/-- A crawl state positioned at `(variant i, page p)` with fresh bookkeeping. -/
def coreAt (env : Env) (i p : Nat) : Core :=
  ⟨{ version := "1.0", currentVariant := i, currentPage := p, seenKeys := [],
     repoCache := [], lastFullScanAt := none, query := env.searchQuery }, [], 0, 0, 0⟩

/-- A minimal indexed plugin for the output-writer fixtures. -/
def mkPlug (nm fp ts : String) : IndexedPlugin :=
  { plugin_name := "p", plugin_author := "a", language := "C#",
    file := { path := fp, html_url := "h", raw_url := "r", sha := "s", size := 1 },
    repository := { full_name := nm, name := "n", html_url := "h", description := none,
                    owner_login := "o", owner_url := "u", default_branch := "main",
                    stargazers_count := 0, forks_count := 0, open_issues_count := 0,
                    created_at := "c" },
    indexed_at := ts }

/-- A two-entry output map with parseable timestamps. -/
def mC7 : EMap :=
  [("k1", mkPlug "bob/x" "a.cs" "2024-01-01T00:00:00.000Z"),
   ("k2", mkPlug "alice/y" "b.cs" "2024-06-01T00:00:00.000Z")]

/-- Base64 of `public class Foo : RustPlugin`. -/
def b64ClassFoo : String := "cHVibGljIGNsYXNzIEZvbyA6IFJ1c3RQbHVnaW4="

/-- Environment whose file fetch returns `b64ClassFoo` for every file. -/
def envC8 : Env :=
  { countFetch := fun _ _ => some 0, pageFetch := fun _ _ => some [],
    repoFetch := fun _ => none, fileFetch := fun _ _ _ => some b64ClassFoo,
    now := "T", searchQuery := "Q", loadedState := none, loadedItems := [] }

/-- A 403 response carrying an exhausted quota and a search reset timestamp. -/
def resp403Reset : HttpResp :=
  { status := 403, remaining := some "0", resetSearch := some "1700",
    resetPrimary := none, retryAfter := none }

/-- The only text shape the `[Info(...)]` pattern can match at some position:
`[Info`, optional whitespace, `(`, optional whitespace, a non-empty quoted
name, optional whitespace, `,`, optional whitespace, a non-empty quoted
author, then — directly after the closing quote, whitespace aside — a `)`.
In particular no third argument can stand between the author and the `)`. -/
def InfoMatchShape (l : List Char) (n a : String) : Prop :=
  ∃ w1 w2 w3 w4 w5 rest,
    l = "[Info".data ++ (w1 ++ '(' :: (w2 ++ '"' :: (n.data ++ '"' :: (w3 ++ ',' ::
          (w4 ++ '"' :: (a.data ++ '"' :: (w5 ++ ')' :: rest))))))) ∧
    (∀ x ∈ w1, isJsSpace x) ∧ (∀ x ∈ w2, isJsSpace x) ∧ (∀ x ∈ w3, isJsSpace x) ∧
    (∀ x ∈ w4, isJsSpace x) ∧ (∀ x ∈ w5, isJsSpace x) ∧
    n.data ≠ [] ∧ a.data ≠ [] ∧ (∀ x ∈ n.data, x ≠ '"') ∧ (∀ x ∈ a.data, x ≠ '"')

/-- A file text whose `[Info]` attribute carries a third argument. -/
def infoThreeArgText : String :=
  "[Info(\"Name\", \"Author\", \"1.0\")]\npublic class Foo : RustPlugin"

/-! # Theorems -/

/-! ## Event-trace helpers -/

theorem savedStatesOf_append (l1 l2 : List Ev) :
    savedStatesOf (l1 ++ l2) = savedStatesOf l1 ++ savedStatesOf l2 := by
  simp [savedStatesOf]

theorem fetchesOf_append (l1 l2 : List Ev) :
    fetchesOf (l1 ++ l2) = fetchesOf l1 ++ fetchesOf l2 := by
  simp [fetchesOf]

theorem writesOf_append (l1 l2 : List Ev) :
    writesOf (l1 ++ l2) = writesOf l1 ++ writesOf l2 := by
  simp [writesOf]

theorem lastSavedState_concat_save (l : List Ev) (s : IndexerState) :
    lastSavedState (l ++ [Ev.save s]) = some s := by
  simp [lastSavedState, savedStatesOf_append, savedStatesOf]

/-- The last state saved by `runOnce` is the reset state written at the end. -/
theorem runOnce_lastSave (env : Env) :
    lastSavedState (runOnce env).2 = some (finalStateOf env) := by
  show lastSavedState (runOnce env).2 = _
  simp only [runOnce]
  rw [← List.append_assoc, ← List.append_assoc]
  exact lastSavedState_concat_save _ _

/-! ## C4: cycle-completion reset -/

/-- C4: when the variant index passes the end of the variant list the cycle is
complete and the persisted state is reset to variant 0 and page 1, the
seen-keys set is emptied, and the last-full-scan timestamp is set to the
run's current time.  (The variant loop of `runOnce` always runs the index off
the end of the list, so this reset is the final `saveState` of every run.) -/
theorem cycle_complete_resets_state (env : Env) :
    ∃ s, lastSavedState (runOnce env).2 = some s ∧
      s.currentVariant = 0 ∧ s.currentPage = 1 ∧ s.seenKeys = [] ∧
      s.lastFullScanAt = some env.now :=
  ⟨finalStateOf env, runOnce_lastSave env, rfl, rfl, rfl, rfl⟩

/-! ## C1: a page fetch error breaks the page loop -/

/-- C1 (amended): an error while fetching a page (the count fetch or the page
fetch throwing) makes the page loop return with the crawl state exactly as it
was — the variant index and page counter are not advanced at that point, and
nothing is saved — but the run then continues with the following variants,
and the state persisted last (what the next process invocation loads) is the
end-of-run reset `(variant 0, page 1)`, not the failed pair.  Direct
resumption at the failed pair happens only if the process dies before the
next variant's state save. -/
theorem fetch_error_breaks_without_advancing (env : Env) (c : Core) (fuel : Nat)
    (hp : c.st.currentPage ≤ 10)
    (herr : env.countFetch c.st.currentVariant c.st.currentPage = none ∨
      ∃ t, env.countFetch c.st.currentVariant c.st.currentPage = some t ∧ t ≠ 0 ∧
           env.pageFetch c.st.currentVariant c.st.currentPage = none) :
    pageLoopF env (fuel + 1) c = (c, [Ev.fetchPage c.st.currentVariant c.st.currentPage]) ∧
    ∃ s, lastSavedState (runOnce env).2 = some s ∧ s.currentVariant = 0 ∧ s.currentPage = 1 := by
  constructor
  · rcases herr with h | ⟨t, hc, ht, hpf⟩
    · simp [pageLoopF, hp, h]
    · simp [pageLoopF, hp, hc, ht, hpf]
  · exact ⟨finalStateOf env, runOnce_lastSave env, rfl, rfl⟩

theorem fetch_error_breaks_without_advancing_witness :
    pageLoopF envC1 11 (coreAt envC1 1 1) = (coreAt envC1 1 1, [Ev.fetchPage 1 1]) ∧
    ∃ s, lastSavedState (runOnce envC1).2 = some s ∧ s.currentVariant = 0 ∧ s.currentPage = 1 :=
  fetch_error_breaks_without_advancing envC1 (coreAt envC1 1 1) 10 (by decide)
    (Or.inl (by decide))

/-- C1 counterexample: in `envC1` the fetch of variant 1, page 1 fails, yet
the state persisted at the end of the run (the one the next invocation
resumes from) is `(variant 0, page 1)`, not the failed pair `(1, 1)`. -/
theorem fetch_error_resume_counterexample :
    (lastSavedState (runOnce envC1).2).map (fun s => (s.currentVariant, s.currentPage)) =
      some (0, 1) ∧ ((0, 1) : Nat × Nat) ≠ (1, 1) :=
  ⟨by decide, by decide⟩

/-! ## Frame lemmas for the crawl interpreter -/

theorem mapItem_cache_extends (env : Env) (item : SItem) (cache : List (String × GitHubRepo))
    (r : IndexedPlugin × List (String × GitHubRepo))
    (h : mapItemToIndexedPlugin env item cache = some r) :
    ∃ t, r.2 = cache ++ t := by
  unfold mapItemToIndexedPlugin at h
  rcases hsp : jsSplitOwnerRepo item.repo_full_name with _ | pr <;> rw [hsp] at h
  · simp at h
  · dsimp only at h
    rcases hlc : lookupCache cache item.repo_full_name with _ | rd <;> rw [hlc] at h
    · rcases hrf : env.repoFetch item.repo_full_name with _ | rd2 <;> rw [hrf] at h
      · simp at h
      · obtain rfl := Option.some_inj.mp h
        exact ⟨[(item.repo_full_name, rd2)], rfl⟩
    · obtain rfl := Option.some_inj.mp h
      exact ⟨[], by simp⟩

/-- One processed item neither moves the crawl position nor issues a search
fetch, and only appends to the repository cache. -/
theorem processItem_frame (env : Env) (c : Core) (it : SItem) :
    (processItem env c it).1.st.currentVariant = c.st.currentVariant ∧
    (processItem env c it).1.st.currentPage = c.st.currentPage ∧
    (∃ t, (processItem env c it).1.st.repoCache = c.st.repoCache ++ t) ∧
    fetchesOf (processItem env c it).2 = [] := by
  unfold processItem
  dsimp only
  by_cases hsk : c.st.seenKeys.contains (itemKey it) = true
  · rw [if_pos hsk]
    exact ⟨rfl, rfl, ⟨[], by simp⟩, rfl⟩
  · rw [if_neg hsk]
    rcases hmi : mapItemToIndexedPlugin env it c.st.repoCache with _ | ⟨indexed, cache2⟩
    · exact ⟨rfl, rfl, ⟨[], by simp⟩, rfl⟩
    · obtain ⟨t, ht⟩ := mapItem_cache_extends env it c.st.repoCache _ hmi
      dsimp only
      split <;> split <;> exact ⟨rfl, rfl, ⟨t, ht⟩, rfl⟩

theorem processItems_frame (env : Env) (l : List SItem) : ∀ (c : Core),
    (processItems env c l).1.st.currentVariant = c.st.currentVariant ∧
    (processItems env c l).1.st.currentPage = c.st.currentPage ∧
    (∃ t, (processItems env c l).1.st.repoCache = c.st.repoCache ++ t) ∧
    fetchesOf (processItems env c l).2 = [] := by
  induction l with
  | nil => exact fun c => ⟨rfl, rfl, ⟨[], (List.append_nil _).symm⟩, rfl⟩
  | cons it rest ih =>
    intro c
    obtain ⟨v1, p1, ⟨t1, hc1⟩, f1⟩ := processItem_frame env c it
    obtain ⟨v2, p2, ⟨t2, hc2⟩, f2⟩ := ih (processItem env c it).1
    refine ⟨by simpa [processItems, v1] using v2, by simpa [processItems, p1] using p2,
      ⟨t1 ++ t2, ?_⟩, ?_⟩
    · show (processItems env (processItem env c it).1 rest).1.st.repoCache = _
      rw [hc2, hc1, List.append_assoc]
    · show fetchesOf ((processItem env c it).2 ++
        (processItems env (processItem env c it).1 rest).2) = []
      rw [fetchesOf_append, f1, f2]
      rfl

theorem pageLoopF_frame (env : Env) (fuel : Nat) : ∀ (c : Core),
    (pageLoopF env fuel c).1.st.currentVariant = c.st.currentVariant ∧
    (∃ t, (pageLoopF env fuel c).1.st.repoCache = c.st.repoCache ++ t) := by
  induction fuel with
  | zero => exact fun c => ⟨rfl, ⟨[], (List.append_nil _).symm⟩⟩
  | succ n ih =>
    intro c
    rw [pageLoopF]
    by_cases hp : c.st.currentPage ≤ 10
    · rw [if_pos hp]
      dsimp only
      rcases env.countFetch c.st.currentVariant c.st.currentPage with _ | tc
      · exact ⟨rfl, ⟨[], (List.append_nil _).symm⟩⟩
      · dsimp only
        by_cases htc : tc = 0
        · rw [if_pos htc]
          exact ⟨rfl, ⟨[], (List.append_nil _).symm⟩⟩
        · rw [if_neg htc]
          rcases env.pageFetch c.st.currentVariant c.st.currentPage with _ | items
          · exact ⟨rfl, ⟨[], (List.append_nil _).symm⟩⟩
          · dsimp only
            by_cases hlen : items.length = 0
            · rw [if_pos hlen]
              exact ⟨rfl, ⟨[], (List.append_nil _).symm⟩⟩
            · rw [if_neg hlen]
              obtain ⟨v1, _, ⟨t1, ht1⟩, _⟩ := processItems_frame env items c
              by_cases hfull : items.length < 100
              · rw [if_pos hfull]
                exact ⟨v1, ⟨t1, ht1⟩⟩
              · rw [if_neg hfull]
                have hstep := ih ⟨{ (processItems env c items).1.st with
                    currentPage := (processItems env c items).1.st.currentPage + 1 },
                  (processItems env c items).1.existingMap,
                  (processItems env c items).1.processedCount,
                  (processItems env c items).1.newEntries,
                  (processItems env c items).1.lastFlushedNewEntries⟩
                obtain ⟨v2, ⟨t2, ht2⟩⟩ := hstep
                refine ⟨?_, ?_⟩
                · rw [v2]
                  exact v1
                · refine ⟨t1 ++ t2, ?_⟩
                  rw [ht2]
                  dsimp only
                  rw [ht1, List.append_assoc]
    · rw [if_neg hp]
      exact ⟨rfl, ⟨[], (List.append_nil _).symm⟩⟩

theorem variantLoopF_cache (env : Env) (fuel : Nat) : ∀ (j : Nat) (c : Core),
    ∃ t, (variantLoopF env fuel j c).1.st.repoCache = c.st.repoCache ++ t := by
  induction fuel with
  | zero => exact fun j c => ⟨[], (List.append_nil _).symm⟩
  | succ n ih =>
    intro j c
    rw [variantLoopF]
    by_cases hj : j < variantsLen
    · rw [if_pos hj]
      dsimp only
      by_cases hv : j ≠ c.st.currentVariant
      · rw [if_pos hv]
        dsimp only
        obtain ⟨_, ⟨t1, hc1⟩⟩ := pageLoopF_frame env 11
          ({ c with st := { c.st with currentVariant := j, currentPage := 1 } })
        obtain ⟨t2, hc2⟩ := ih (j + 1) (pageLoopF env 11
          ({ c with st := { c.st with currentVariant := j, currentPage := 1 } })).1
        refine ⟨t1 ++ t2, ?_⟩
        rw [hc2, hc1]
        dsimp only
        rw [List.append_assoc]
      · rw [if_neg hv]
        dsimp only
        obtain ⟨_, ⟨t1, hc1⟩⟩ := pageLoopF_frame env 11 c
        obtain ⟨t2, hc2⟩ := ih (j + 1) (pageLoopF env 11 c).1
        exact ⟨t1 ++ t2, by rw [hc2, hc1, List.append_assoc]⟩
    · rw [if_neg hj]
      exact ⟨[], (List.append_nil _).symm⟩

/-! ## C9: the repository cache is persisted, not per-process -/

/-- C9 (amended): the repository-metadata cache is a field of the persisted
`IndexerState`; it is not cleared by the end-of-run reset (which clears only
the seen keys and the crawl position), so the final `saveState` of a run
persists a cache extending the one loaded at startup, and the next process
invocation starts from it. -/
theorem repo_cache_persisted_across_runs (env : Env) (s : IndexerState)
    (h1 : env.loadedState = some s) (h2 : s.version = "1.0") :
    ∃ f t, lastSavedState (runOnce env).2 = some f ∧ f.repoCache = s.repoCache ++ t := by
  have hinit : (initState env).1 = s := by simp [initState, h1, h2]
  obtain ⟨t, ht⟩ := variantLoopF_cache env variantsLen (initState env).1.currentVariant
    ⟨(initState env).1, loadExistingOutput env.loadedItems, 0, 0, 0⟩
  refine ⟨finalStateOf env, t, runOnce_lastSave env, ?_⟩
  show (coreAfterVariants env).st.repoCache = s.repoCache ++ t
  rw [coreAfterVariants, ht]
  dsimp only
  rw [hinit]

theorem repo_cache_persisted_across_runs_witness :
    ∃ f t, lastSavedState (runOnce envC9).2 = some f ∧ f.repoCache = stLoaded9.repoCache ++ t :=
  repo_cache_persisted_across_runs envC9 stLoaded9 rfl rfl

/-- C9 counterexample: in `envC9` the loaded state's cache holds one
repository; the state persisted at the end of the run still carries it — the
cache is neither cleared every run nor dropped from the persisted state. -/
theorem repo_cache_not_cleared_counterexample :
    (lastSavedState (runOnce envC9).2).map (fun s => s.repoCache) =
      some [("alice/repo", repoA)] ∧
    ([("alice/repo", repoA)] : List (String × GitHubRepo)) ≠ [] :=
  ⟨by decide, by decide⟩

/-! ## C5: primary rate limits are honoured -/

/-- C5: on a 403 whose remaining-quota header is `"0"` and whose reset header
(the search-specific one preferred) parses to a positive epoch-seconds value
`T`, the client decides to sleep `max 0 (T·1000 − now) + 1500` milliseconds
and retry: the sleep is at least `T·1000 − now` plus the 1500 ms safety
margin, so the retry moment `now + wait` is never before `T` (in ms). -/
theorem primary_rate_limit_honored (r : HttpResp) (attempt : Nat) (now T : Int)
    (h403 : r.status = 403) (hrem : r.remaining = some "0")
    (hT : jsParseInt (resetHeaderStr r) = some T) (hTpos : 0 < T) :
    githubFetchStep r attempt now = FetchStep.sleepRetry (primaryWaitMs r now) ∧
    T * 1000 - now + 1500 ≤ primaryWaitMs r now ∧
    T * 1000 ≤ now + primaryWaitMs r now := by
  have hpa : primaryApplies r = true := by
    simp [primaryApplies, hrem, hT, hTpos]
  have hmax : T * 1000 - now ≤ max 0 (T * 1000 - now) := le_max_right _ _
  refine ⟨by simp [githubFetchStep, h403, hpa], ?_, ?_⟩
  · unfold primaryWaitMs
    rw [hT]
    simp only [Option.getD_some]
    linarith
  · unfold primaryWaitMs
    rw [hT]
    simp only [Option.getD_some]
    linarith

theorem primary_rate_limit_honored_witness :
    githubFetchStep resp403Reset 1 5000 =
      FetchStep.sleepRetry (primaryWaitMs resp403Reset 5000) ∧
    1700 * 1000 - 5000 + 1500 ≤ primaryWaitMs resp403Reset 5000 ∧
    1700 * 1000 ≤ 5000 + primaryWaitMs resp403Reset 5000 :=
  primary_rate_limit_honored resp403Reset 1 5000 1700 rfl rfl (by decide) (by decide)

/-! ## C6: the secondary-rate-limit backoff -/

/-- C6 (amended): a 403 that is neither a primary rate limit (exhausted quota
with positive reset timestamp) nor carries a usable `Retry-After` header is
treated as a secondary rate limit; the backoff is `5000 · attempt`
milliseconds capped at 120000 — growing additively by 5000 ms per attempt,
not multiplicatively — and once the attempt counter has reached the maximum
of 6 the client sleeps that backoff once more and then fails fatally. -/
theorem secondary_backoff_linear_capped (r : HttpResp) (attempt : Nat) (now : Int)
    (h403 : r.status = 403) (hprim : primaryApplies r = false)
    (hra : retryAfterTruthy r = false) :
    githubFetchStep r attempt now =
      if 6 ≤ attempt then FetchStep.sleepThenFail (min 120000 (5000 * (attempt : Int)))
      else FetchStep.sleepRetry (min 120000 (5000 * (attempt : Int))) := by
  simp [githubFetchStep, h403, hprim, hra, secondaryBackoffMs]

theorem secondary_backoff_linear_capped_witness :
    githubFetchStep bare403 2 0 =
      if 6 ≤ 2 then FetchStep.sleepThenFail (min 120000 (5000 * ((2 : Nat) : Int)))
      else FetchStep.sleepRetry (min 120000 (5000 * ((2 : Nat) : Int))) :=
  secondary_backoff_linear_capped bare403 2 0 rfl (by decide) rfl

/-- C6 counterexample: the secondary-limit waits at attempts 1, 2, 3 are
5000, 10000 and 15000 ms.  A wait "growing multiplicatively" (a geometric
progression) would satisfy `w2 · w2 = w1 · w3`, but `10000² ≠ 5000 · 15000`:
the growth is additive (5000 ms per attempt), not multiplicative. -/
theorem secondary_backoff_not_multiplicative :
    githubFetchStep bare403 1 0 = FetchStep.sleepRetry 5000 ∧
    githubFetchStep bare403 2 0 = FetchStep.sleepRetry 10000 ∧
    githubFetchStep bare403 3 0 = FetchStep.sleepRetry 15000 ∧
    ¬((10000 : Int) * 10000 = 5000 * 15000) :=
  ⟨by decide, by decide, by decide, by decide⟩

/-! ## C8: the class-declaration fallback and the owner login -/

/-- C8: when the decoded file content has no structured `[Info(...)]` match
and the class-declaration pattern matches with class name `w` (as for a file
containing `class Foo : RustPlugin` and no Info attribute), the extraction
step of `mapItemToIndexedPlugin` yields plugin name `w`, and the empty author
produced by the class match is replaced by the repository owner's login. -/
theorem class_match_author_is_owner_login (env : Env)
    (fullName pathStr sha fb L content w base : String)
    (hfile : env.fileFetch fullName pathStr sha = some content)
    (hinfo : findInfo (decodeBase64 content).data = none)
    (hclass : findClass (decodeBase64 content).data = some (w, base)) :
    extractNameAuthor env fullName pathStr sha fb L = (w, L) := by
  unfold extractNameAuthor parsePluginInfo parsePluginInfoDecoded
  simp only [hfile, hinfo, hclass]
  simp

theorem class_match_author_is_owner_login_witness :
    extractNameAuthor envC8 "alice/repo" "p" "s" "fb" "alice" = ("Foo", "alice") :=
  class_match_author_is_owner_login envC8 "alice/repo" "p" "s" "fb" "alice" b64ClassFoo
    "Foo" "RustPlugin" rfl (by decide) (by decide)

/-! ## C10: what the `[Info(...)]` pattern can match -/

theorem stripPrefixCs_sound : ∀ (ps l rest : List Char),
    stripPrefixCs ps l = some rest → l = ps ++ rest := by
  intro ps
  induction ps with
  | nil =>
    intro l rest h
    simpa [stripPrefixCs] using h
  | cons p ps ih =>
    intro l rest h
    cases l with
    | nil => simp [stripPrefixCs] at h
    | cons x xs =>
      rw [stripPrefixCs] at h
      by_cases hx : x = p
      · rw [if_pos hx] at h
        rw [hx, List.cons_append]
        exact congrArg _ (ih xs rest h)
      · rw [if_neg hx] at h
        exact absurd h (by simp)

theorem expectChar_sound (c : Char) : ∀ (l rest : List Char),
    expectChar c l = some rest → l = c :: rest := by
  intro l rest h
  cases l with
  | nil => simp [expectChar] at h
  | cons x xs =>
    rw [expectChar] at h
    by_cases hx : x = c
    · rw [if_pos hx] at h
      obtain rfl := Option.some_inj.mp h
      rw [hx]
    · rw [if_neg hx] at h
      exact absurd h (by simp)

theorem takeWhile_sat (p : Char → Bool) : ∀ (l : List Char) (x : Char),
    x ∈ l.takeWhile p → p x = true := by
  intro l
  induction l with
  | nil =>
    intro x hx
    simp at hx
  | cons y ys ih =>
    intro x hx
    rw [List.takeWhile_cons] at hx
    by_cases hp : p y = true
    · rw [if_pos hp] at hx
      rcases List.mem_cons.mp hx with rfl | hmem
      · exact hp
      · exact ih x hmem
    · rw [if_neg hp] at hx
      simp at hx

theorem dropWhile_split (p : Char → Bool) (l rest : List Char) (c : Char)
    (h : expectChar c (l.dropWhile p) = some rest) :
    l = l.takeWhile p ++ (c :: rest) := by
  conv_lhs => rw [← List.takeWhile_append_dropWhile (p := p) (l := l)]
  rw [expectChar_sound c _ rest h]

/-- Soundness of the `[Info(...)]` matcher: any successful match at a
position decomposes the text into exactly the two-argument shape, with the
closing parenthesis directly (whitespace aside) after the second string. -/
theorem matchInfoAt_shape (l : List Char) (n a : String)
    (h : matchInfoAt l = some (n, a)) : InfoMatchShape l n a := by
  unfold matchInfoAt at h
  rcases h1 : stripPrefixCs "[Info".data l with _ | l1 <;> rw [h1] at h
  · simp at h
  dsimp only at h
  rcases h2 : expectChar '(' (l1.dropWhile isJsSpace) with _ | l3 <;> rw [h2] at h
  · simp at h
  dsimp only at h
  rcases h3 : expectChar '"' (l3.dropWhile isJsSpace) with _ | l5 <;> rw [h3] at h
  · simp at h
  dsimp only at h
  rcases h4 : expectChar '"' (l5.dropWhile (fun c => c ≠ '"')) with _ | l6 <;> rw [h4] at h
  · simp at h
  dsimp only at h
  by_cases hne : (l5.takeWhile (fun c => c ≠ '"')).isEmpty = true
  · rw [if_pos hne] at h
    simp at h
  rw [if_neg hne] at h
  rcases h5 : expectChar ',' (l6.dropWhile isJsSpace) with _ | l8 <;> rw [h5] at h
  · simp at h
  dsimp only at h
  rcases h6 : expectChar '"' (l8.dropWhile isJsSpace) with _ | l10 <;> rw [h6] at h
  · simp at h
  dsimp only at h
  rcases h7 : expectChar '"' (l10.dropWhile (fun c => c ≠ '"')) with _ | l11 <;> rw [h7] at h
  · simp at h
  dsimp only at h
  by_cases hae : (l10.takeWhile (fun c => c ≠ '"')).isEmpty = true
  · rw [if_pos hae] at h
    simp at h
  rw [if_neg hae] at h
  rcases h8 : expectChar ')' (l11.dropWhile isJsSpace) with _ | l13 <;> rw [h8] at h
  · simp at h
  dsimp only at h
  obtain ⟨hn, ha⟩ := Prod.mk.injEq .. |>.mp (Option.some_inj.mp h)
  have hnd : n.data = l5.takeWhile (fun c => c ≠ '"') := by
    rw [← hn]
    rfl
  have had : a.data = l10.takeWhile (fun c => c ≠ '"') := by
    rw [← ha]
    rfl
  have e1 : l = "[Info".data ++ l1 := stripPrefixCs_sound _ _ _ h1
  have e2 : l1 = l1.takeWhile isJsSpace ++ ('(' :: l3) := dropWhile_split _ _ _ _ h2
  have e3 : l3 = l3.takeWhile isJsSpace ++ ('"' :: l5) := dropWhile_split _ _ _ _ h3
  have e4 : l5 = l5.takeWhile (fun c => c ≠ '"') ++ ('"' :: l6) := dropWhile_split _ _ _ _ h4
  have e5 : l6 = l6.takeWhile isJsSpace ++ (',' :: l8) := dropWhile_split _ _ _ _ h5
  have e6 : l8 = l8.takeWhile isJsSpace ++ ('"' :: l10) := dropWhile_split _ _ _ _ h6
  have e7 : l10 = l10.takeWhile (fun c => c ≠ '"') ++ ('"' :: l11) := dropWhile_split _ _ _ _ h7
  have e8 : l11 = l11.takeWhile isJsSpace ++ (')' :: l13) := dropWhile_split _ _ _ _ h8
  refine ⟨l1.takeWhile isJsSpace, l3.takeWhile isJsSpace, l6.takeWhile isJsSpace,
    l8.takeWhile isJsSpace, l11.takeWhile isJsSpace, l13, ?_, ?_, ?_, ?_, ?_, ?_, ?_, ?_, ?_, ?_⟩
  · rw [e1]
    conv_lhs => rw [e2, e3, e4, e5, e6, e7, e8]
    rw [hnd, had]
  · exact fun x hx => takeWhile_sat _ _ _ hx
  · exact fun x hx => takeWhile_sat _ _ _ hx
  · exact fun x hx => takeWhile_sat _ _ _ hx
  · exact fun x hx => takeWhile_sat _ _ _ hx
  · exact fun x hx => takeWhile_sat _ _ _ hx
  · rw [hnd]
    intro hcontra
    rw [hcontra] at hne
    exact hne rfl
  · rw [had]
    intro hcontra
    rw [hcontra] at hae
    exact hae rfl
  · intro x hx
    have := takeWhile_sat (fun c => c ≠ '"') l5 x (hnd ▸ hx)
    simpa using this
  · intro x hx
    have := takeWhile_sat (fun c => c ≠ '"') l10 x (had ▸ hx)
    simpa using this

/-- A leftmost match of the Info pattern is a match at some position. -/
theorem findInfo_shape : ∀ (l : List Char) (n a : String), findInfo l = some (n, a) →
    ∃ pre suf, l = pre ++ suf ∧ matchInfoAt suf = some (n, a) := by
  intro l
  induction l with
  | nil =>
    intro n a h
    simp [findInfo] at h
  | cons c cs ih =>
    intro n a h
    rw [findInfo] at h
    rcases hm : matchInfoAt (c :: cs) with _ | r <;> rw [hm] at h
    · obtain ⟨pre, suf, hps, hm2⟩ := ih n a h
      exact ⟨c :: pre, suf, by rw [List.cons_append, ← hps], hm2⟩
    · obtain rfl := Option.some_inj.mp h
      exact ⟨[], c :: cs, rfl, hm⟩

/-- C10: the structured `[Info(...)]` pattern matches only a two-argument
attribute — wherever it matches, the matched segment has a closing
parenthesis directly (whitespace aside) after the second quoted string — so
for a content whose attribute carries a third argument, such as
`[Info("Name", "Author", "1.0")]`, the pattern does not match and extraction
falls through to the class-declaration fallback. -/
theorem info_pattern_requires_direct_close_paren :
    (∀ (s : String) (n a : String), findInfo s.data = some (n, a) →
       ∃ pre suf, s.data = pre ++ suf ∧ InfoMatchShape suf n a) ∧
    parsePluginInfoDecoded infoThreeArgText = some ("Foo", "") := by
  constructor
  · intro s n a h
    obtain ⟨pre, suf, hps, hm⟩ := findInfo_shape s.data n a h
    exact ⟨pre, suf, hps, matchInfoAt_shape suf n a hm⟩
  · decide

theorem info_pattern_requires_direct_close_paren_witness :
    ∃ pre suf, ("[Info(\"A\",\"B\")]" : String).data = pre ++ suf ∧
      InfoMatchShape suf "A" "B" :=
  info_pattern_requires_direct_close_paren.1 "[Info(\"A\",\"B\")]" "A" "B" (by decide)

/-! ## The sort is a permutation -/

theorem insertSorted_perm (x : IndexedPlugin) : ∀ (l : List IndexedPlugin),
    List.Perm (insertSorted x l) (x :: l) := by
  intro l
  induction l with
  | nil => exact List.Perm.refl _
  | cons y ys ih =>
    rw [insertSorted]
    by_cases hc : cmpItems x y ≤ 0
    · rw [if_pos hc]
    · rw [if_neg hc]
      exact (List.Perm.cons y ih).trans (List.Perm.swap x y ys)

theorem sortItems_perm : ∀ (l : List IndexedPlugin), List.Perm (sortItems l) l := by
  intro l
  induction l with
  | nil => exact List.Perm.refl _
  | cons x xs ih =>
    show List.Perm (insertSorted x (sortItems xs)) (x :: xs)
    exact (insertSorted_perm x (sortItems xs)).trans (List.Perm.cons x ih)

theorem tripleNe_symm : ∀ {a b : IndexedPlugin}, tripleNe a b → tripleNe b a :=
  fun h heq => h heq.symm

/-! ## The output-map invariant (C2) -/

theorem indexedKey_eq_of_triple_eq (a b : IndexedPlugin) (h : tripleOf a = tripleOf b) :
    indexedKey a = indexedKey b := by
  have h1 : a.repository.full_name = b.repository.full_name := congrArg (fun t => t.1) h
  have h2 : a.file.path = b.file.path := congrArg (fun t => t.2.1) h
  have h3 : a.file.sha = b.file.sha := congrArg (fun t => t.2.2) h
  unfold indexedKey
  rw [h1, h2, h3]

theorem goodMap_values_pairwise (m : EMap) (h : goodMap m) :
    (mapValues m).Pairwise tripleNe := by
  obtain ⟨hkeys, hkv⟩ := h
  unfold mapValues
  rw [List.pairwise_map]
  refine hkeys.imp_of_mem ?_
  intro p q hp hq hne htr
  exact hne (by rw [hkv p hp, hkv q hq]; exact indexedKey_eq_of_triple_eq _ _ htr)

theorem goodMap_append_new (m : EMap) (k : String) (v : IndexedPlugin)
    (h : goodMap m) (hk : k = indexedKey v) (hh : ¬ mapHas m k = true) :
    goodMap (m ++ [(k, v)]) := by
  have hnotin : ∀ p ∈ m, p.1 ≠ k := by
    intro p hp heq
    apply hh
    unfold mapHas
    rw [List.any_eq_true]
    exact ⟨p, hp, by simp [heq]⟩
  constructor
  · rw [List.pairwise_append]
    refine ⟨h.1, List.pairwise_singleton .., ?_⟩
    intro p hp q hq
    rw [List.mem_singleton.mp hq]
    exact hnotin p hp
  · intro p hp
    rcases List.mem_append.mp hp with h1 | h1
    · exact h.2 p h1
    · rw [List.mem_singleton.mp h1, hk]

theorem goodMap_mapSet (m : EMap) (v : IndexedPlugin) (h : goodMap m) :
    goodMap (mapSet m (indexedKey v) v) := by
  unfold mapSet
  by_cases hh : mapHas m (indexedKey v) = true
  · rw [if_pos hh]
    constructor
    · rw [List.pairwise_map]
      refine h.1.imp_of_mem ?_
      intro p q hp hq hne
      have gp : (if p.1 = indexedKey v then (indexedKey v, v) else p).1 = p.1 := by
        split
        · rename_i hc
          rw [← hc]
        · rfl
      have gq : (if q.1 = indexedKey v then (indexedKey v, v) else q).1 = q.1 := by
        split
        · rename_i hc
          rw [← hc]
        · rfl
      rw [gp, gq]
      exact hne
    · intro q hq
      rw [List.mem_map] at hq
      obtain ⟨p, hp, rfl⟩ := hq
      by_cases hc : p.1 = indexedKey v
      · rw [if_pos hc]
      · rw [if_neg hc]
        exact h.2 p hp
  · rw [if_neg hh]
    exact goodMap_append_new m (indexedKey v) v h rfl hh

theorem goodMap_nil : goodMap [] := ⟨List.Pairwise.nil, by intro p hp; simp at hp⟩

theorem loadExistingOutput_good (items : List IndexedPlugin) :
    goodMap (loadExistingOutput items) := by
  unfold loadExistingOutput
  suffices hgen : ∀ (l : List IndexedPlugin) (m : EMap), goodMap m →
      goodMap (l.foldl (fun m it => mapSet m (indexedKey it) it) m) by
    exact hgen items [] goodMap_nil
  intro l
  induction l with
  | nil => exact fun m hm => hm
  | cons it rest ih =>
    intro m hm
    exact ih _ (goodMap_mapSet m it hm)

theorem writeUnifiedOutput_items_pairwise (m : EMap) (q now : String) (h : goodMap m) :
    (writeUnifiedOutput m q now).items.Pairwise tripleNe := by
  show (sortItems (mapValues m)).Pairwise tripleNe
  rw [List.Perm.pairwise_iff (fun hab => tripleNe_symm hab) (sortItems_perm (mapValues m))]
  exact goodMap_values_pairwise m h

/-! ## Write events of the interpreter emit deduplicated items -/

theorem writesOf_nil : writesOf ([] : List Ev) = [] := rfl

theorem writesOf_fetch_cons (i p : Nat) (l : List Ev) :
    writesOf (Ev.fetchPage i p :: l) = writesOf l := by
  simp [writesOf]

theorem writesOf_save_cons (s : IndexerState) (l : List Ev) :
    writesOf (Ev.save s :: l) = writesOf l := by
  simp [writesOf]

theorem writesOf_write_cons (wp : OutputPayload) (l : List Ev) :
    writesOf (Ev.write wp :: l) = wp :: writesOf l := by
  simp [writesOf]

theorem processItem_good (env : Env) (c : Core) (it : SItem) (h : goodMap c.existingMap) :
    goodMap (processItem env c it).1.existingMap ∧
    ∀ w ∈ writesOf (processItem env c it).2, w.items.Pairwise tripleNe := by
  unfold processItem
  dsimp only
  by_cases hsk : c.st.seenKeys.contains (itemKey it) = true
  · rw [if_pos hsk]
    exact ⟨h, by intro w hw; simp [writesOf] at hw⟩
  · rw [if_neg hsk]
    rcases hmi : mapItemToIndexedPlugin env it c.st.repoCache with _ | ⟨indexed, cache2⟩
    · exact ⟨h, by intro w hw; simp [writesOf] at hw⟩
    · dsimp only
      split
      · split
        · refine ⟨h, ?_⟩
          intro w hw
          rw [writesOf_write_cons, writesOf_save_cons, writesOf_nil] at hw
          rw [List.mem_singleton.mp hw]
          exact writeUnifiedOutput_items_pairwise _ _ _ h
        · exact ⟨h, by intro w hw; simp [writesOf] at hw⟩
      · rename_i hh
        have hgood2 := goodMap_append_new c.existingMap (indexedKey indexed) indexed h rfl hh
        split
        · refine ⟨hgood2, ?_⟩
          intro w hw
          rw [writesOf_write_cons, writesOf_save_cons, writesOf_nil] at hw
          rw [List.mem_singleton.mp hw]
          exact writeUnifiedOutput_items_pairwise _ _ _ hgood2
        · exact ⟨hgood2, by intro w hw; simp [writesOf] at hw⟩

theorem processItems_good (env : Env) (l : List SItem) : ∀ (c : Core),
    goodMap c.existingMap →
    goodMap (processItems env c l).1.existingMap ∧
    ∀ w ∈ writesOf (processItems env c l).2, w.items.Pairwise tripleNe := by
  induction l with
  | nil =>
    intro c h
    refine ⟨h, ?_⟩
    intro w hw
    rw [show (processItems env c []).2 = [] from rfl, writesOf_nil] at hw
    exact absurd hw (List.not_mem_nil w)
  | cons it rest ih =>
    intro c h
    obtain ⟨h1, hw1⟩ := processItem_good env c it h
    obtain ⟨h2, hw2⟩ := ih (processItem env c it).1 h1
    refine ⟨h2, ?_⟩
    intro w hw
    rw [show (processItems env c (it :: rest)).2 = (processItem env c it).2 ++
        (processItems env (processItem env c it).1 rest).2 from rfl, writesOf_append] at hw
    rcases List.mem_append.mp hw with h3 | h3
    · exact hw1 w h3
    · exact hw2 w h3

theorem pageLoopF_good (env : Env) (fuel : Nat) : ∀ (c : Core), goodMap c.existingMap →
    goodMap (pageLoopF env fuel c).1.existingMap ∧
    ∀ w ∈ writesOf (pageLoopF env fuel c).2, w.items.Pairwise tripleNe := by
  induction fuel with
  | zero =>
    intro c h
    refine ⟨h, ?_⟩
    intro w hw
    rw [show (pageLoopF env 0 c).2 = [] from rfl, writesOf_nil] at hw
    exact absurd hw (List.not_mem_nil w)
  | succ n ih =>
    intro c h
    rw [pageLoopF]
    by_cases hp : c.st.currentPage ≤ 10
    · rw [if_pos hp]
      dsimp only
      rcases env.countFetch c.st.currentVariant c.st.currentPage with _ | tc
      · exact ⟨h, by intro w hw; simp [writesOf] at hw⟩
      · dsimp only
        by_cases htc : tc = 0
        · rw [if_pos htc]
          exact ⟨h, by intro w hw; simp [writesOf] at hw⟩
        · rw [if_neg htc]
          rcases env.pageFetch c.st.currentVariant c.st.currentPage with _ | items
          · exact ⟨h, by intro w hw; simp [writesOf] at hw⟩
          · dsimp only
            by_cases hlen : items.length = 0
            · rw [if_pos hlen]
              exact ⟨h, by intro w hw; simp [writesOf] at hw⟩
            · rw [if_neg hlen]
              obtain ⟨h1, hw1⟩ := processItems_good env items c h
              by_cases hfull : items.length < 100
              · rw [if_pos hfull]
                refine ⟨h1, ?_⟩
                intro w hw
                rw [writesOf_fetch_cons, writesOf_append, writesOf_save_cons, writesOf_nil,
                    List.append_nil] at hw
                exact hw1 w hw
              · rw [if_neg hfull]
                obtain ⟨h2, hw2⟩ := ih ⟨{ (processItems env c items).1.st with
                    currentPage := (processItems env c items).1.st.currentPage + 1 },
                  (processItems env c items).1.existingMap,
                  (processItems env c items).1.processedCount,
                  (processItems env c items).1.newEntries,
                  (processItems env c items).1.lastFlushedNewEntries⟩ h1
                refine ⟨h2, ?_⟩
                intro w hw
                rw [writesOf_fetch_cons, writesOf_append, writesOf_save_cons] at hw
                rcases List.mem_append.mp hw with h3 | h3
                · exact hw1 w h3
                · exact hw2 w h3
    · rw [if_neg hp]
      exact ⟨h, by intro w hw; simp [writesOf] at hw⟩

theorem variantLoopF_good (env : Env) (fuel : Nat) : ∀ (j : Nat) (c : Core),
    goodMap c.existingMap →
    goodMap (variantLoopF env fuel j c).1.existingMap ∧
    ∀ w ∈ writesOf (variantLoopF env fuel j c).2, w.items.Pairwise tripleNe := by
  induction fuel with
  | zero =>
    intro j c h
    refine ⟨h, ?_⟩
    intro w hw
    rw [show (variantLoopF env 0 j c).2 = [] from rfl, writesOf_nil] at hw
    exact absurd hw (List.not_mem_nil w)
  | succ n ih =>
    intro j c h
    rw [variantLoopF]
    by_cases hj : j < variantsLen
    · rw [if_pos hj]
      dsimp only
      by_cases hv : j ≠ c.st.currentVariant
      · rw [if_pos hv]
        dsimp only
        obtain ⟨h1, hw1⟩ := pageLoopF_good env 11
          ({ c with st := { c.st with currentVariant := j, currentPage := 1 } }) h
        obtain ⟨h2, hw2⟩ := ih (j + 1) (pageLoopF env 11
          ({ c with st := { c.st with currentVariant := j, currentPage := 1 } })).1 h1
        refine ⟨h2, ?_⟩
        intro w hw
        rw [writesOf_append, writesOf_save_cons, writesOf_nil, List.nil_append,
            writesOf_append] at hw
        rcases List.mem_append.mp hw with h3 | h3
        · exact hw1 w h3
        · exact hw2 w h3
      · rw [if_neg hv]
        dsimp only
        obtain ⟨h1, hw1⟩ := pageLoopF_good env 11 c h
        obtain ⟨h2, hw2⟩ := ih (j + 1) (pageLoopF env 11 c).1 h1
        refine ⟨h2, ?_⟩
        intro w hw
        rw [show writesOf ([] ++ ((pageLoopF env 11 c).2 ++
            (variantLoopF env n (j + 1) (pageLoopF env 11 c).1).2)) = writesOf
            ((pageLoopF env 11 c).2 ++
            (variantLoopF env n (j + 1) (pageLoopF env 11 c).1).2) from rfl,
          writesOf_append] at hw
        rcases List.mem_append.mp hw with h3 | h3
        · exact hw1 w h3
        · exact hw2 w h3
    · rw [if_neg hj]
      exact ⟨h, by intro w hw; simp [writesOf] at hw⟩

theorem initState_writes (env : Env) : writesOf (initState env).2 = [] := by
  unfold initState
  rcases env.loadedState with _ | s
  · rfl
  · dsimp only
    by_cases hv : s.version = "1.0"
    · rw [if_pos hv]
      rfl
    · rw [if_neg hv]
      rfl

/-! ## C2: the written items carry no duplicate identity triples -/

/-- C2: every output index written during a run (checkpoint writes and the
final write) has an `items` array with pairwise distinct (repository full
name, file path, content hash) triples: the output map is keyed by
`indexedKey`, which is determined by that triple, so `writeUnifiedOutput`
never emits duplicates. -/
theorem output_items_no_duplicate_triples (env : Env) (w : OutputPayload)
    (hw : w ∈ writesOf (runOnce env).2) : w.items.Pairwise tripleNe := by
  obtain ⟨hg1, hw1⟩ := variantLoopF_good env variantsLen (initState env).1.currentVariant
    ⟨(initState env).1, loadExistingOutput env.loadedItems, 0, 0, 0⟩
    (loadExistingOutput_good _)
  rw [show (runOnce env).2 = (initState env).2 ++
      ((variantLoopF env variantsLen (initState env).1.currentVariant
        ⟨(initState env).1, loadExistingOutput env.loadedItems, 0, 0, 0⟩).2 ++
       ((if (coreAfterVariants env).lastFlushedNewEntries < (coreAfterVariants env).newEntries
         then [Ev.write (writeUnifiedOutput (coreAfterVariants env).existingMap
                env.searchQuery env.now)]
         else []) ++ [Ev.save (finalStateOf env)])) from rfl,
    writesOf_append, writesOf_append, writesOf_append, initState_writes] at hw
  rcases List.mem_append.mp hw with h1 | h1
  · simp at h1
  rcases List.mem_append.mp h1 with h2 | h2
  · exact hw1 w h2
  rcases List.mem_append.mp h2 with h3 | h3
  · by_cases hflush : (coreAfterVariants env).lastFlushedNewEntries <
        (coreAfterVariants env).newEntries
    · rw [if_pos hflush, writesOf_write_cons, writesOf_nil] at h3
      rw [List.mem_singleton.mp h3]
      exact writeUnifiedOutput_items_pairwise _ _ _ hg1
    · rw [if_neg hflush] at h3
      simp [writesOf] at h3
  · rw [writesOf_save_cons, writesOf_nil] at h3
    simp at h3

theorem output_items_no_duplicate_triples_witness :
    wC2.items.Pairwise tripleNe :=
  output_items_no_duplicate_triples envC2 wC2 (by decide)

/-! ## The comparator of `writeUnifiedOutput` is a total preorder -/

theorem strCmpChars_total : ∀ (as bs : List Char),
    strCmpChars as bs ≤ 0 ∨ strCmpChars bs as ≤ 0 := by
  intro as
  induction as with
  | nil =>
    intro bs
    cases bs with
    | nil => left; norm_num [strCmpChars]
    | cons b bs => left; norm_num [strCmpChars]
  | cons a as ih =>
    intro bs
    cases bs with
    | nil => right; norm_num [strCmpChars]
    | cons b bs =>
      rw [strCmpChars, strCmpChars]
      by_cases h1 : a.toNat < b.toNat
      · left
        rw [if_pos h1]
        norm_num
      · by_cases h2 : b.toNat < a.toNat
        · right
          rw [if_pos h2]
          norm_num
        · rw [if_neg h1, if_neg h2, if_neg h2, if_neg h1]
          exact ih bs

theorem strCmpChars_eq_zero : ∀ (as bs : List Char), strCmpChars as bs = 0 → as = bs := by
  intro as
  induction as with
  | nil =>
    intro bs h
    cases bs with
    | nil => rfl
    | cons b bs => norm_num [strCmpChars] at h
  | cons a as ih =>
    intro bs h
    cases bs with
    | nil => norm_num [strCmpChars] at h
    | cons b bs =>
      rw [strCmpChars] at h
      by_cases h1 : a.toNat < b.toNat
      · rw [if_pos h1] at h
        norm_num at h
      · by_cases h2 : b.toNat < a.toNat
        · rw [if_neg h1, if_pos h2] at h
          norm_num at h
        · rw [if_neg h1, if_neg h2] at h
          have hab : a = b := Char.ext (UInt32.ext (Nat.le_antisymm
            (Nat.le_of_not_lt h2) (Nat.le_of_not_lt h1)))
          rw [hab, ih bs h]

theorem strCmpChars_trans : ∀ (as bs cs : List Char),
    strCmpChars as bs ≤ 0 → strCmpChars bs cs ≤ 0 → strCmpChars as cs ≤ 0 := by
  intro as
  induction as with
  | nil =>
    intro bs cs _ _
    cases cs with
    | nil => norm_num [strCmpChars]
    | cons c cs => norm_num [strCmpChars]
  | cons a as ih =>
    intro bs cs h1 h2
    cases bs with
    | nil => norm_num [strCmpChars] at h1
    | cons b bs =>
      cases cs with
      | nil => norm_num [strCmpChars] at h2
      | cons c cs =>
        rw [strCmpChars] at h1 h2 ⊢
        by_cases hab : a.toNat < b.toNat
        · rw [if_pos hab] at h1
          by_cases hbc : b.toNat < c.toNat
          · rw [if_pos (Nat.lt_trans hab hbc)]
            norm_num
          · by_cases hcb : c.toNat < b.toNat
            · rw [if_neg hbc, if_pos hcb] at h2
              norm_num at h2
            · have hbce : b.toNat = c.toNat :=
                Nat.le_antisymm (Nat.le_of_not_lt hcb) (Nat.le_of_not_lt hbc)
              rw [if_pos (hbce ▸ hab)]
              norm_num
        · by_cases hba : b.toNat < a.toNat
          · rw [if_neg hab, if_pos hba] at h1
            norm_num at h1
          · have habe : a.toNat = b.toNat :=
              Nat.le_antisymm (Nat.le_of_not_lt hba) (Nat.le_of_not_lt hab)
            rw [if_neg hab, if_neg hba] at h1
            by_cases hbc : b.toNat < c.toNat
            · rw [if_pos (habe ▸ hbc)]
              norm_num
            · by_cases hcb : c.toNat < b.toNat
              · rw [if_neg hbc, if_pos hcb] at h2
                norm_num at h2
              · have hac1 : ¬ a.toNat < c.toNat := by omega
                have hac2 : ¬ c.toNat < a.toNat := by omega
                rw [if_neg hbc, if_neg hcb] at h2
                rw [if_neg hac1, if_neg hac2]
                exact ih bs cs h1 h2

theorem strCmp_eq_zero (s t : String) (h : strCmp s t = 0) : s = t :=
  String.ext (strCmpChars_eq_zero s.data t.data h)

theorem strCmpChars_neg : ∀ (as bs : List Char), strCmpChars bs as = -strCmpChars as bs := by
  intro as
  induction as with
  | nil =>
    intro bs
    cases bs with
    | nil => norm_num [strCmpChars]
    | cons b bs => norm_num [strCmpChars]
  | cons a as ih =>
    intro bs
    cases bs with
    | nil => norm_num [strCmpChars]
    | cons b bs =>
      rw [strCmpChars, strCmpChars]
      by_cases h1 : a.toNat < b.toNat
      · have h2 : ¬ b.toNat < a.toNat := by omega
        rw [if_neg h2, if_pos h1, if_pos h1]
        norm_num
      · by_cases h2 : b.toNat < a.toNat
        · rw [if_pos h2, if_neg h1, if_pos h2]
        · rw [if_neg h2, if_neg h1, if_neg h1, if_neg h2]
          exact ih bs

theorem strCmp_le_antisymm (s t : String) (h1 : strCmp s t ≤ 0) (h2 : strCmp t s ≤ 0) :
    s = t := by
  apply strCmp_eq_zero
  have hneg : strCmp t s = -strCmp s t := strCmpChars_neg s.data t.data
  omega

theorem tieCmp_trans (a b c : IndexedPlugin) (h1 : tieCmp a b ≤ 0) (h2 : tieCmp b c ≤ 0) :
    tieCmp a c ≤ 0 := by
  unfold tieCmp at h1 h2 ⊢
  by_cases hab : a.repository.full_name = b.repository.full_name
  · rw [if_pos hab] at h1
    by_cases hbc : b.repository.full_name = c.repository.full_name
    · rw [if_pos hbc] at h2
      rw [if_pos (hab.trans hbc)]
      exact strCmpChars_trans _ _ _ h1 h2
    · rw [if_neg hbc] at h2
      have hac : ¬ a.repository.full_name = c.repository.full_name :=
        fun hh => hbc (hab ▸ hh)
      rw [if_neg hac]
      rw [show strCmp a.repository.full_name c.repository.full_name =
        strCmp b.repository.full_name c.repository.full_name from by rw [hab]]
      exact h2
  · rw [if_neg hab] at h1
    by_cases hbc : b.repository.full_name = c.repository.full_name
    · rw [if_pos hbc] at h2
      have hac : ¬ a.repository.full_name = c.repository.full_name :=
        fun hh => hab (hh.trans hbc.symm)
      rw [if_neg hac]
      rw [show strCmp a.repository.full_name c.repository.full_name =
        strCmp a.repository.full_name b.repository.full_name from by rw [hbc]]
      exact h1
    · rw [if_neg hbc] at h2
      by_cases hac : a.repository.full_name = c.repository.full_name
      · exfalso
        rw [show strCmp b.repository.full_name c.repository.full_name =
          strCmp b.repository.full_name a.repository.full_name from by rw [hac]] at h2
        exact hab (strCmp_le_antisymm _ _ h1 h2)
      · rw [if_neg hac]
        exact strCmpChars_trans _ _ _ h1 h2

theorem cmpItems_total (a b : IndexedPlugin) : cmpItems a b ≤ 0 ∨ cmpItems b a ≤ 0 := by
  unfold cmpItems
  rcases parseISOms a.indexed_at with _ | x
  · left
    rcases parseISOms b.indexed_at with _ | y <;> norm_num
  · rcases parseISOms b.indexed_at with _ | y
    · left
      norm_num
    · dsimp only
      by_cases hxy : x = y
      · rw [if_pos hxy, if_pos hxy.symm]
        unfold tieCmp
        by_cases hn : a.repository.full_name = b.repository.full_name
        · rw [if_pos hn, if_pos hn.symm]
          exact strCmpChars_total _ _
        · rw [if_neg hn, if_neg (fun hh => hn hh.symm)]
          exact strCmpChars_total _ _
      · rw [if_neg hxy, if_neg (fun hh => hxy hh.symm)]
        omega

theorem cmpItems_trans (a b c : IndexedPlugin)
    (ha : (parseISOms a.indexed_at).isSome = true)
    (hb : (parseISOms b.indexed_at).isSome = true)
    (hc : (parseISOms c.indexed_at).isSome = true)
    (h1 : cmpItems a b ≤ 0) (h2 : cmpItems b c ≤ 0) : cmpItems a c ≤ 0 := by
  obtain ⟨x, hx⟩ := Option.isSome_iff_exists.mp ha
  obtain ⟨y, hy⟩ := Option.isSome_iff_exists.mp hb
  obtain ⟨z, hz⟩ := Option.isSome_iff_exists.mp hc
  unfold cmpItems at h1 h2 ⊢
  rw [hx, hy] at h1
  rw [hy, hz] at h2
  rw [hx, hz]
  dsimp only at h1 h2 ⊢
  by_cases hxy : x = y
  · rw [if_pos hxy] at h1
    by_cases hyz : y = z
    · rw [if_pos hyz] at h2
      rw [if_pos (hxy.trans hyz)]
      exact tieCmp_trans a b c h1 h2
    · rw [if_neg hyz] at h2
      rw [if_neg (hxy ▸ hyz)]
      omega
  · rw [if_neg hxy] at h1
    by_cases hyz : y = z
    · rw [if_neg (fun hh : x = z => hxy (hh.trans hyz.symm))]
      omega
    · rw [if_neg hyz] at h2
      have hxz : ¬ x = z := by omega
      rw [if_neg hxz]
      omega

/-! ## Sortedness of `sortItems` -/

theorem insertSorted_pairwise (x : IndexedPlugin) : ∀ (l : List IndexedPlugin),
    (parseISOms x.indexed_at).isSome = true →
    (∀ y ∈ l, (parseISOms y.indexed_at).isSome = true) →
    l.Pairwise (fun a b => cmpItems a b ≤ 0) →
    (insertSorted x l).Pairwise (fun a b => cmpItems a b ≤ 0) := by
  intro l
  induction l with
  | nil =>
    intro _ _ _
    simp [insertSorted]
  | cons y ys ih =>
    intro hx hl hp
    rw [insertSorted]
    obtain ⟨hy_ys, hys⟩ := List.pairwise_cons.mp hp
    by_cases hc : cmpItems x y ≤ 0
    · rw [if_pos hc]
      refine List.pairwise_cons.mpr ⟨?_, hp⟩
      intro z hz
      rcases List.mem_cons.mp hz with rfl | hmem
      · exact hc
      · exact cmpItems_trans x y z hx (hl y (List.mem_cons_self ..))
          (hl z (List.mem_cons_of_mem _ hmem)) hc (hy_ys z hmem)
    · rw [if_neg hc]
      have hyx : cmpItems y x ≤ 0 := (cmpItems_total x y).resolve_left hc
      refine List.pairwise_cons.mpr
        ⟨?_, ih hx (fun z hz => hl z (List.mem_cons_of_mem _ hz)) hys⟩
      intro z hz
      rcases List.mem_cons.mp ((insertSorted_perm x ys).mem_iff.mp hz) with rfl | hmem
      · exact hyx
      · exact hy_ys z hmem

theorem sortItems_pairwise : ∀ (l : List IndexedPlugin),
    (∀ y ∈ l, (parseISOms y.indexed_at).isSome = true) →
    (sortItems l).Pairwise (fun a b => cmpItems a b ≤ 0) := by
  intro l
  induction l with
  | nil => intro _; exact List.Pairwise.nil
  | cons x xs ih =>
    intro hl
    show (insertSorted x (sortItems xs)).Pairwise _
    refine insertSorted_pairwise x (sortItems xs) (hl x (List.mem_cons_self ..)) ?_
      (ih fun y hy => hl y (List.mem_cons_of_mem _ hy))
    intro y hy
    exact hl y (List.mem_cons_of_mem _ ((sortItems_perm xs).mem_iff.mp hy))

theorem cmpItems_le_specOrder (a b : IndexedPlugin)
    (ha : (parseISOms a.indexed_at).isSome = true)
    (hb : (parseISOms b.indexed_at).isSome = true)
    (h : cmpItems a b ≤ 0) : specOrder a b := by
  obtain ⟨x, hx⟩ := Option.isSome_iff_exists.mp ha
  obtain ⟨y, hy⟩ := Option.isSome_iff_exists.mp hb
  unfold cmpItems at h
  rw [hx, hy] at h
  dsimp only at h
  unfold specOrder tsKey
  rw [hx, hy]
  simp only [Option.getD_some]
  by_cases hxy : x = y
  · rw [if_pos hxy] at h
    refine Or.inr ⟨hxy, ?_⟩
    unfold tieCmp at h
    by_cases hn : a.repository.full_name = b.repository.full_name
    · rw [if_pos hn] at h
      exact Or.inr ⟨hn, h⟩
    · rw [if_neg hn] at h
      left
      rcases lt_or_eq_of_le h with hlt | heq0
      · exact hlt
      · exact absurd (strCmp_eq_zero _ _ heq0) hn
  · rw [if_neg hxy] at h
    left
    omega

/-! ## C7: `writeUnifiedOutput` sorts deterministically -/

/-- C7: `writeUnifiedOutput` emits the map's values sorted by indexed-at
timestamp descending, ties broken by repository full name and then by file
path (stated for maps whose timestamps all parse; an unparseable timestamp
makes the JS comparator return `NaN`, which the sort treats as a tie), and it
is deterministic: applied twice to the same entry map it produces identical
`items`, `count` and `query`, differing only in `generated_at`. -/
theorem write_output_sorted_and_idempotent :
    (∀ (m : EMap) (q t : String),
       (∀ it ∈ mapValues m, (parseISOms it.indexed_at).isSome = true) →
       (writeUnifiedOutput m q t).items.Pairwise specOrder) ∧
    (∀ (m : EMap) (q t1 t2 : String),
       (writeUnifiedOutput m q t1).items = (writeUnifiedOutput m q t2).items ∧
       (writeUnifiedOutput m q t1).count = (writeUnifiedOutput m q t2).count ∧
       (writeUnifiedOutput m q t1).query = (writeUnifiedOutput m q t2).query ∧
       (writeUnifiedOutput m q t1).generated_at = t1) := by
  constructor
  · intro m q t hall
    show (sortItems (mapValues m)).Pairwise specOrder
    have hsort := sortItems_pairwise (mapValues m) hall
    have hmem : ∀ y ∈ sortItems (mapValues m), (parseISOms y.indexed_at).isSome = true :=
      fun y hy => hall y ((sortItems_perm _).mem_iff.mp hy)
    exact hsort.imp_of_mem (fun {a b} hia hib hle =>
      cmpItems_le_specOrder a b (hmem a hia) (hmem b hib) hle)
  · exact fun m q t1 t2 => ⟨rfl, rfl, rfl, rfl⟩

theorem write_output_sorted_and_idempotent_witness :
    (writeUnifiedOutput mC7 "q" "t").items.Pairwise specOrder :=
  write_output_sorted_and_idempotent.1 mC7 "q" "t" (by decide)

/-! ## Fetch-trace lemmas for the page loop -/

theorem fetchesOf_nil : fetchesOf ([] : List Ev) = [] := rfl

theorem fetchesOf_fetch_cons (i p : Nat) (l : List Ev) :
    fetchesOf (Ev.fetchPage i p :: l) = (i, p) :: fetchesOf l := by
  simp [fetchesOf]

theorem fetchesOf_save_cons (s : IndexerState) (l : List Ev) :
    fetchesOf (Ev.save s :: l) = fetchesOf l := by
  simp [fetchesOf]

theorem fetchesOf_write_cons (w : OutputPayload) (l : List Ev) :
    fetchesOf (Ev.write w :: l) = fetchesOf l := by
  simp [fetchesOf]

/-- Whenever the page loop runs an iteration, that iteration's search fetch
is the first fetch it records. -/
theorem pageLoopF_head (env : Env) (fuel : Nat) (c : Core) (hp : c.st.currentPage ≤ 10) :
    ∃ tail, (pageLoopF env (fuel + 1) c).2 =
      Ev.fetchPage c.st.currentVariant c.st.currentPage :: tail := by
  rw [pageLoopF, if_pos hp]
  dsimp only
  rcases env.countFetch c.st.currentVariant c.st.currentPage with _ | tc
  · exact ⟨[], rfl⟩
  · dsimp only
    by_cases htc : tc = 0
    · rw [if_pos htc]
      exact ⟨[], rfl⟩
    · rw [if_neg htc]
      rcases env.pageFetch c.st.currentVariant c.st.currentPage with _ | items
      · exact ⟨[], rfl⟩
      · dsimp only
        by_cases hlen : items.length = 0
        · rw [if_pos hlen]
          exact ⟨[], rfl⟩
        · rw [if_neg hlen]
          by_cases hfull : items.length < 100
          · rw [if_pos hfull]
            exact ⟨_, rfl⟩
          · rw [if_neg hfull]
            exact ⟨_, rfl⟩

/-- The page loop records exactly one fetch when the iteration breaks: zero
total count, an empty page, or a short (fewer than 100 items) page. -/
theorem pageLoopF_break_fetches (env : Env) (fuel : Nat) (c : Core)
    (hp : c.st.currentPage ≤ 10)
    (hbr : env.countFetch c.st.currentVariant c.st.currentPage = some 0 ∨
           (∃ t, env.countFetch c.st.currentVariant c.st.currentPage = some t ∧ t ≠ 0 ∧
                 env.pageFetch c.st.currentVariant c.st.currentPage = some []) ∨
           (∃ t items, env.countFetch c.st.currentVariant c.st.currentPage = some t ∧
                 t ≠ 0 ∧ env.pageFetch c.st.currentVariant c.st.currentPage = some items ∧
                 items ≠ [] ∧ items.length < 100)) :
    fetchesOf (pageLoopF env (fuel + 1) c).2 = [(c.st.currentVariant, c.st.currentPage)] := by
  rw [pageLoopF, if_pos hp]
  dsimp only
  rcases hbr with h0 | ⟨t, hcf, ht, hpf⟩ | ⟨t, items, hcf, ht, hpf, hne, hlen⟩
  · rw [h0]
    dsimp only
    rw [if_pos rfl]
    rw [fetchesOf_fetch_cons, fetchesOf_nil]
  · rw [hcf]
    dsimp only
    rw [if_neg ht, hpf]
    dsimp only
    rw [if_pos (List.length_nil : ([] : List SItem).length = 0)]
    rw [fetchesOf_fetch_cons, fetchesOf_nil]
  · rw [hcf]
    dsimp only
    rw [if_neg ht, hpf]
    dsimp only
    have hlen0 : ¬ items.length = 0 := by
      intro hh
      exact hne (List.length_eq_zero.mp hh)
    rw [if_neg hlen0]
    rw [if_pos hlen]
    rw [fetchesOf_fetch_cons, fetchesOf_append, (processItems_frame env items c).2.2.2,
        List.nil_append, fetchesOf_save_cons, fetchesOf_nil]

/-- On a full page below the page cap, the next recorded fetch is the same
variant's next page. -/
theorem pageLoopF_full_fetches (env : Env) (fuel : Nat) (c : Core) (t : Nat)
    (items : List SItem) (hp : c.st.currentPage ≤ 9)
    (hcf : env.countFetch c.st.currentVariant c.st.currentPage = some t) (ht : t ≠ 0)
    (hpf : env.pageFetch c.st.currentVariant c.st.currentPage = some items)
    (hlen : 100 ≤ items.length) :
    ∃ rest, fetchesOf (pageLoopF env (fuel + 2) c).2 =
      (c.st.currentVariant, c.st.currentPage) ::
      (c.st.currentVariant, c.st.currentPage + 1) :: rest := by
  have hp10 : c.st.currentPage ≤ 10 := by omega
  rw [show fuel + 2 = (fuel + 1) + 1 from rfl, pageLoopF, if_pos hp10]
  dsimp only
  rw [hcf]
  dsimp only
  rw [if_neg ht, hpf]
  dsimp only
  have hlen0 : ¬ items.length = 0 := by omega
  rw [if_neg hlen0]
  have hfull : ¬ items.length < 100 := by omega
  rw [if_neg hfull]
  dsimp only
  obtain ⟨v1, p1, _, f1⟩ := processItems_frame env items c
  obtain ⟨tail, htail⟩ := pageLoopF_head env fuel ⟨{ (processItems env c items).1.st with
      currentPage := (processItems env c items).1.st.currentPage + 1 },
    (processItems env c items).1.existingMap, (processItems env c items).1.processedCount,
    (processItems env c items).1.newEntries, (processItems env c items).1.lastFlushedNewEntries⟩
    (by dsimp only; rw [p1]; omega)
  rw [fetchesOf_fetch_cons, fetchesOf_append, f1, List.nil_append, fetchesOf_save_cons,
      htail, fetchesOf_fetch_cons]
  dsimp only
  rw [p1, v1]
  exact ⟨fetchesOf tail, rfl⟩

/-- Entering the variant loop at a fresh variant records that variant's page
1 fetch first. -/
theorem variantLoopF_switch_head (env : Env) (fuel : Nat) (j : Nat) (c : Core)
    (hj : j < variantsLen) (hne : j ≠ c.st.currentVariant) :
    ∃ tail, fetchesOf (variantLoopF env (fuel + 1) j c).2 = (j, 1) :: tail := by
  rw [variantLoopF, if_pos hj]
  dsimp only
  rw [if_pos hne]
  dsimp only
  rw [show (11 : Nat) = 10 + 1 from rfl]
  obtain ⟨tail, htail⟩ := pageLoopF_head env 10
    ({ c with st := { c.st with currentVariant := j, currentPage := 1 } }) (by norm_num)
  rw [fetchesOf_append, fetchesOf_save_cons, fetchesOf_nil, List.nil_append,
      fetchesOf_append, htail, fetchesOf_fetch_cons]
  exact ⟨_, rfl⟩

/-! ## C3: the page-loop transition rules -/

/-- C3 (amended): from `(variant i, page p)` the crawl-position transitions
are: (1) a zero reported total count or an empty page moves the next fetch to
`(i+1, 1)` (when a next variant exists); (2) a non-empty page with fewer than
100 items is processed and then the next fetch is `(i+1, 1)` (when a next
variant exists); (3) a full page advances the next fetch to `(i, p+1)` — but
only for `p ≤ 9`: at the page cap `p = 10` a full page also ends the variant
(the next fetch is `(i+1, 1)`, see the counterexample). -/
theorem page_loop_transitions :
    (∀ (env : Env) (fuel : Nat) (c : Core),
       c.st.currentPage ≤ 10 →
       variantsLen ≤ fuel + c.st.currentVariant →
       c.st.currentVariant + 1 < variantsLen →
       (env.countFetch c.st.currentVariant c.st.currentPage = some 0 ∨
        (∃ t, env.countFetch c.st.currentVariant c.st.currentPage = some t ∧ t ≠ 0 ∧
              env.pageFetch c.st.currentVariant c.st.currentPage = some [])) →
       ∃ rest, fetchesOf (variantLoopF env fuel c.st.currentVariant c).2 =
         (c.st.currentVariant, c.st.currentPage) :: (c.st.currentVariant + 1, 1) :: rest) ∧
    (∀ (env : Env) (fuel : Nat) (c : Core) (t : Nat) (items : List SItem),
       c.st.currentPage ≤ 10 →
       variantsLen ≤ fuel + c.st.currentVariant →
       c.st.currentVariant + 1 < variantsLen →
       env.countFetch c.st.currentVariant c.st.currentPage = some t → t ≠ 0 →
       env.pageFetch c.st.currentVariant c.st.currentPage = some items →
       items ≠ [] → items.length < 100 →
       ∃ rest, fetchesOf (variantLoopF env fuel c.st.currentVariant c).2 =
         (c.st.currentVariant, c.st.currentPage) :: (c.st.currentVariant + 1, 1) :: rest) ∧
    (∀ (env : Env) (fuel : Nat) (c : Core) (t : Nat) (items : List SItem),
       c.st.currentPage ≤ 9 →
       variantsLen ≤ fuel + c.st.currentVariant →
       c.st.currentVariant < variantsLen →
       env.countFetch c.st.currentVariant c.st.currentPage = some t → t ≠ 0 →
       env.pageFetch c.st.currentVariant c.st.currentPage = some items →
       100 ≤ items.length →
       ∃ rest, fetchesOf (variantLoopF env fuel c.st.currentVariant c).2 =
         (c.st.currentVariant, c.st.currentPage) ::
         (c.st.currentVariant, c.st.currentPage + 1) :: rest) := by
  have hbreak : ∀ (env : Env) (fuel : Nat) (c : Core),
      c.st.currentPage ≤ 10 →
      variantsLen ≤ fuel + c.st.currentVariant →
      c.st.currentVariant + 1 < variantsLen →
      (env.countFetch c.st.currentVariant c.st.currentPage = some 0 ∨
       (∃ t, env.countFetch c.st.currentVariant c.st.currentPage = some t ∧ t ≠ 0 ∧
             env.pageFetch c.st.currentVariant c.st.currentPage = some []) ∨
       (∃ t items, env.countFetch c.st.currentVariant c.st.currentPage = some t ∧
             t ≠ 0 ∧ env.pageFetch c.st.currentVariant c.st.currentPage = some items ∧
             items ≠ [] ∧ items.length < 100)) →
      ∃ rest, fetchesOf (variantLoopF env fuel c.st.currentVariant c).2 =
        (c.st.currentVariant, c.st.currentPage) :: (c.st.currentVariant + 1, 1) :: rest := by
    intro env fuel c hp hfuel hnext hbr
    obtain ⟨f, rfl⟩ : ∃ f, fuel = f + 1 := ⟨fuel - 1, by omega⟩
    rw [variantLoopF, if_pos (by omega : c.st.currentVariant < variantsLen)]
    dsimp only
    rw [if_neg (fun hh : c.st.currentVariant ≠ c.st.currentVariant => hh rfl)]
    dsimp only
    rw [List.nil_append, fetchesOf_append, show (11 : Nat) = 10 + 1 from rfl,
        pageLoopF_break_fetches env 10 c hp hbr]
    obtain ⟨f2, rfl⟩ : ∃ f2, f = f2 + 1 := ⟨f - 1, by omega⟩
    have hv' : (pageLoopF env (10 + 1) c).1.st.currentVariant = c.st.currentVariant :=
      (pageLoopF_frame env (10 + 1) c).1
    obtain ⟨tail, htail⟩ := variantLoopF_switch_head env f2 (c.st.currentVariant + 1)
      (pageLoopF env (10 + 1) c).1 (by omega) (by rw [hv']; omega)
    rw [htail]
    exact ⟨tail, rfl⟩
  refine ⟨?_, ?_, ?_⟩
  · intro env fuel c hp hfuel hnext hbr
    refine hbreak env fuel c hp hfuel hnext ?_
    rcases hbr with h0 | h1
    · exact Or.inl h0
    · exact Or.inr (Or.inl h1)
  · intro env fuel c t items hp hfuel hnext hcf ht hpf hne hlen
    exact hbreak env fuel c hp hfuel hnext (Or.inr (Or.inr ⟨t, items, hcf, ht, hpf, hne, hlen⟩))
  · intro env fuel c t items hp hfuel hi hcf ht hpf hlen
    obtain ⟨f, rfl⟩ : ∃ f, fuel = f + 1 := ⟨fuel - 1, by omega⟩
    rw [variantLoopF, if_pos hi]
    dsimp only
    rw [if_neg (fun hh : c.st.currentVariant ≠ c.st.currentVariant => hh rfl)]
    dsimp only
    rw [List.nil_append, fetchesOf_append, show (11 : Nat) = 9 + 2 from rfl]
    obtain ⟨rest, hrest⟩ := pageLoopF_full_fetches env 9 c t items hp hcf ht hpf hlen
    rw [hrest]
    exact ⟨_, rfl⟩

theorem page_loop_transitions_witness :
    (∃ rest, fetchesOf (variantLoopF envC3 30 2 (coreAt envC3 2 1)).2 =
      (2, 1) :: (3, 1) :: rest) ∧
    (∃ rest, fetchesOf (variantLoopF envC3 30 1 (coreAt envC3 1 1)).2 =
      (1, 1) :: (2, 1) :: rest) ∧
    (∃ rest, fetchesOf (variantLoopF envC3 30 0 (coreAt envC3 0 1)).2 =
      (0, 1) :: (0, 2) :: rest) :=
  ⟨page_loop_transitions.1 envC3 30 (coreAt envC3 2 1) (by decide) (by decide) (by decide)
     (Or.inl (by decide)),
   page_loop_transitions.2.1 envC3 30 (coreAt envC3 1 1) 5 [itemB] (by decide) (by decide)
     (by decide) (by decide) (by decide) rfl (by decide) (by decide),
   page_loop_transitions.2.2 envC3 30 (coreAt envC3 0 1) 1000 bigPage (by decide) (by decide)
     (by decide) (by decide) (by decide) rfl (by decide)⟩

/-- C3 counterexample: in `envC3` variant 0 has full pages throughout; from
`(variant 0, page 10)` — a state with `p ≤ 10` and a full page, the
"otherwise" case of the claim — the next fetched state is `(1, 1)`, not
`(0, 11)`: the `p = 10` full-page case ends the variant instead of advancing
the page. -/
theorem page_cap_transition_counterexample :
    (fetchesOf (runOnce envC3).2)[9]? = some (0, 10) ∧
    (fetchesOf (runOnce envC3).2)[10]? = some (1, 1) ∧
    ((1, 1) : Nat × Nat) ≠ (0, 11) :=
  ⟨by decide, by decide, by decide⟩

end OxideIndexer
